import Mathlib

/-!
# Temperature stabilisation: coordinator (`server.c`) and peripheral (`client.c`)

A shallow embedding of the two programs.  Temperatures are `double` in the
source; here they are exact rationals, so every arithmetic statement below is a
statement about the exact-arithmetic reading of the code.  The one decision
that is claimed of the machine arithmetic itself, the convergence test, is
embedded a second time over an arbitrary arithmetic in the section `Mach`.  The fixed-size C
arrays `ids`, `curr_ext`, `last_ext` are lists that are read with `getD` and
written with `List.set`; the uninitialised contents of `last_ext` are a
parameter of the initial state.

The transport is an input of the model: every call of `recv_line` followed by
`sscanf` is summarised by the values those two calls return (`Rx`, `RxC`), and
every `send_line` by whether it succeeded.  A separate model of `sscanf` for the
four formats of the programs turns concrete text lines into such summaries.
-/

set_option autoImplicit false

namespace TempStab

/-! ## Constants of `server.c` -/

def NCLIENTS : Nat := 4

/-- The constant `EPS` in the exact reading. -/
def EPS : ℚ := 1 / 1000

/-! ## What a read delivers -/

/-- Outcome of `recv_line(fd, line, ..)` followed by
`sscanf(line, "<TAG> %d %lf", &cid, &t)` in `server.c`: `ret` is what
`recv_line` returned, `n` what `sscanf` returned, `cid` and `t` the two
variables afterwards (they start as `0` and `0.0`). -/
structure Rx where
  ret : Int
  n : Int
  cid : Int
  t : ℚ
  deriving DecidableEq

/-- Outcome of `recv_line` followed by the two `sscanf` calls of `client.c`:
`nDone` is the result of `sscanf(line, "DONE %lf", &x)` and `xDone` the value of
`x` after it, `nCentral` the result of `sscanf(line, "CENTRAL %lf", &x)` and
`xCentral` the value of `x` after that second call. -/
structure RxC where
  ret : Int
  nDone : Int
  xDone : ℚ
  nCentral : Int
  xCentral : ℚ
  deriving DecidableEq

/-! ## The coordinator, `server.c` -/

/-- Messages the coordinator puts on or takes off a connection; `i` is the
index of the connection in `fds`. -/
inductive Event where
  | sendCentral (i : Nat) (v : ℚ)
  | recvTemp (i : Nat) (cid : Int) (t : ℚ)
  | sendDone (i : Nat) (v : ℚ)
  deriving DecidableEq

/-- Local variables of `main` in `server.c` that live across rounds. -/
structure Server where
  central : ℚ
  ids : List Int
  curr_ext : List ℚ
  last_ext : List ℚ
  have_last : Bool
  iter : Nat
  deriving DecidableEq

/-- One connection attempt of the registration loop: whether `accept` gave a
descriptor, and what the read of the HELLO line delivered. -/
structure Hello where
  acceptOk : Bool
  rx : Rx
  deriving DecidableEq

/-- The loop `for (int i = 0; i < NCLIENTS; i++)` of lines 75-95, entered at
index `i` with `n` iterations left.  Every failure is `return 1`. -/
def acceptFrom (hello : Nat → Hello) : Nat → Nat → List Int → List ℚ →
    Except Nat (List Int × List ℚ)
  | 0, _, ids, curr => .ok (ids, curr)
  | n + 1, i, ids, curr =>
    if (hello i).acceptOk = false then .error 1
    else if (hello i).rx.ret ≤ 0 then .error 1
    else if (hello i).rx.n ≠ 2 then .error 1
    else acceptFrom hello n (i + 1) (ids.set i (hello i).rx.cid) (curr.set i (hello i).rx.t)

/-- Lines 50-97 of `server.c`: the state in which the round loop is entered.
`currJunk` and `lastJunk` stand for the uninitialised contents of `curr_ext`
and `last_ext`. -/
def register (central : ℚ) (currJunk lastJunk : List ℚ) (hello : Nat → Hello) :
    Except Nat Server :=
  match acceptFrom hello NCLIENTS 0 [0, 0, 0, 0] currJunk with
  | .error c => .error c
  | .ok (ids, curr) =>
    .ok { central := central, ids := ids, curr_ext := curr, last_ext := lastJunk,
          have_last := false, iter := 0 }

/-- What the transport does during one round: whether each `send_line` of
CENTRAL succeeds, what each read of the collect loop delivers, and whether each
`send_line` of DONE succeeds. -/
structure RoundIn where
  sendOk : Nat → Bool
  rx : Nat → Rx
  doneOk : Nat → Bool

/-- The broadcast loop of lines 101-105, entered at index `i` with `n`
iterations left; the flag is `false` when a `send_line` failed (`return 1`). -/
def broadcastFrom (central : ℚ) (sendOk : Nat → Bool) : Nat → Nat → List Event × Bool
  | 0, _ => ([], true)
  | n + 1, i =>
    if sendOk i then
      (Event.sendCentral i central :: (broadcastFrom central sendOk n (i + 1)).1,
        (broadcastFrom central sendOk n (i + 1)).2)
    else ([], false)

/-- The lookup loop of lines 118-125, entered at index `k` with `n` iterations
left: the first slot whose id is `cid` receives `t`; `none` is `placed == false`. -/
def placeFrom (cid : Int) (t : ℚ) : Nat → Nat → Server → Option Server
  | 0, _, _ => none
  | n + 1, k, st =>
    if st.ids.getD k 0 = cid then
      some { st with
        last_ext := if st.have_last then st.last_ext.set k (st.curr_ext.getD k 0)
                    else st.last_ext
        curr_ext := st.curr_ext.set k t }
    else placeFrom cid t n (k + 1) st

/-- Result of the collect loop: it ran to its end, or the program returned 1
in the state given. -/
inductive Collected where
  | ok (st : Server)
  | fail (st : Server)
  deriving DecidableEq

/-- The collect loop of lines 107-130, entered at index `i` with `n`
iterations left. -/
def collectFrom (rx : Nat → Rx) : Nat → Nat → Server → List Event × Collected
  | 0, _, st => ([], .ok st)
  | n + 1, i, st =>
    if (rx i).ret ≤ 0 then ([], .fail st)
    else if (rx i).n ≠ 2 then ([], .fail st)
    else
      match placeFrom (rx i).cid (rx i).t NCLIENTS 0 st with
      | none => ([Event.recvTemp i (rx i).cid (rx i).t], .fail st)
      | some st1 =>
        (Event.recvTemp i (rx i).cid (rx i).t :: (collectFrom rx n (i + 1) st1).1,
          (collectFrom rx n (i + 1) st1).2)

/-- The loop of lines 134-138 in the exact reading, entered at index `i` with
`n` iterations left: `false` as soon as one `|curr_ext[i] - last_ext[i]|`
exceeds `EPS`.  The same loop over the arithmetic of `double` is
`Mach.deltaFrom`. -/
def deltaFrom (st : Server) : Nat → Nat → Bool
  | 0, _ => true
  | n + 1, i =>
    let delta := st.curr_ext.getD i 0 - st.last_ext.getD i 0
    let delta := if delta < 0 then -delta else delta
    if delta > EPS then false else deltaFrom st n (i + 1)

/-- Lines 132-139: `converged`. -/
def converged (st : Server) : Bool :=
  if st.have_last then deltaFrom st NCLIENTS 0 else false

/-- The loop of line 142, entered at index `i` with `n` iterations left. -/
def sumFrom (curr : List ℚ) : Nat → Nat → ℚ → ℚ
  | 0, _, acc => acc
  | n + 1, i, acc => sumFrom curr n (i + 1) (acc + curr.getD i 0)

/-- Lines 141-143: `new_central`. -/
def new_central (st : Server) : ℚ :=
  (2 * st.central + sumFrom st.curr_ext NCLIENTS 0 0) / 6

/-- The DONE loop of lines 151-155; the result of `send_line` is not looked
at, a failed send only leaves no message. -/
def doneFrom (v : ℚ) (doneOk : Nat → Bool) : Nat → Nat → List Event
  | 0, _ => []
  | n + 1, i =>
    if doneOk i then Event.sendDone i v :: doneFrom v doneOk n (i + 1)
    else doneFrom v doneOk n (i + 1)

/-- How one pass through the body of `for (;;)` ends. -/
inductive RoundRes where
  | abort (code : Nat) (st : Server)
  | stabilized (st : Server) (final : ℚ)
  | next (st : Server)
  deriving DecidableEq

/-- One pass through the body of `for (;;)`, lines 99-164. -/
def round (inp : RoundIn) (st0 : Server) : List Event × RoundRes :=
  let st := { st0 with iter := st0.iter + 1 }
  let b := broadcastFrom st.central inp.sendOk NCLIENTS 0
  if b.2 = false then (b.1, .abort 1 st)
  else
    let c := collectFrom inp.rx NCLIENTS 0 st
    match c.2 with
    | .fail st1 => (b.1 ++ c.1, .abort 1 st1)
    | .ok st1 =>
      if converged st1 then
        (b.1 ++ c.1 ++ doneFrom (new_central st1) inp.doneOk NCLIENTS 0,
          .stabilized st1 (new_central st1))
      else
        (b.1 ++ c.1, .next { st1 with central := new_central st1, have_last := true })

/-- How the coordinator process ends, or that the model was given too few
rounds. -/
inductive RunRes where
  | exit (code : Nat) (st : Server)
  | stabilized (st : Server) (final : ℚ)
  | outOfFuel (st : Server)
  deriving DecidableEq

/-- The loop `for (;;)` of lines 98-165, at most `fuel` passes; round `r` gets
the transport behaviour `env r`.  After `stabilized` the program returns 0. -/
def run (env : Nat → RoundIn) : Nat → Server → List Event × RunRes
  | 0, st => ([], .outOfFuel st)
  | fuel + 1, st =>
    match (round (env (st.iter + 1)) st).2 with
    | .abort c st1 => ((round (env (st.iter + 1)) st).1, .exit c st1)
    | .stabilized st1 v => ((round (env (st.iter + 1)) st).1, .stabilized st1 v)
    | .next st1 =>
      ((round (env (st.iter + 1)) st).1 ++ (run env fuel st1).1, (run env fuel st1).2)

/-! ## The peripheral, `client.c` -/

/-- Local variables `id` and `ext` of `main` in `client.c`. -/
structure Client where
  id : Int
  ext : ℚ
  deriving DecidableEq

/-- The one kind of message the peripheral sends inside its loop. -/
inductive CEvent where
  | sendTemp (id : Int) (v : ℚ)
  deriving DecidableEq

/-- How one pass through the peripheral loop ends: back to the top of the
loop, or the process ends with the given status. -/
inductive ClientRes where
  | again (st : Client)
  | exit (code : Nat) (st : Client)
  deriving DecidableEq

/-- One pass through the loop of lines 71-94 of `client.c`.  `sendOk` says
whether `send_line` of the TEMP message succeeds.  The three `break`s lead to
`return 0`, the failed send to `return 1`. -/
def clientStep (sendOk : Bool) (rx : RxC) (st : Client) : List CEvent × ClientRes :=
  if rx.ret ≤ 0 then ([], .exit 0 st)
  else if rx.nDone = 1 then ([], .exit 0 st)
  else if rx.nCentral = 1 then
    let central := rx.xCentral
    let new_ext := (3 * st.ext + 2 * central) / 5
    if sendOk then ([CEvent.sendTemp st.id new_ext], .again { st with ext := new_ext })
    else ([], .exit 1 { st with ext := new_ext })
  else ([], .exit 0 st)

/-! ## Coordinator and four peripherals on an exact wire

The programs print temperatures with `%.12f` and read them back with `%lf`.
In the closed system below a value arrives as the exact rational that was
sent: what the reader's `sscanf` delivers is built directly from the sender's
message. -/

/-- What the peripheral reads when the coordinator has sent `CENTRAL v`. -/
def wireCentral (v : ℚ) : RxC :=
  { ret := 1, nDone := 0, xDone := 0, nCentral := 1, xCentral := v }

/-- What the peripheral reads when the coordinator has sent `DONE v`. -/
def wireDone (v : ℚ) : RxC :=
  { ret := 1, nDone := 1, xDone := v, nCentral := 0, xCentral := v }

/-- What the coordinator reads on a connection whose peripheral produced the
given messages in this round; no message reads as a lost connection. -/
def wireTemp : List CEvent → Rx
  | [] => { ret := 0, n := 0, cid := 0, t := 0 }
  | CEvent.sendTemp id v :: _ => { ret := 1, n := 2, cid := id, t := v }

/-- The peripheral's variables after a pass through its loop. -/
def ClientRes.state : ClientRes → Client
  | .again st => st
  | .exit _ st => st

/-- Coordinator state after registration together with the peripherals, the
one on connection `i` at position `i`. -/
structure System where
  server : Server
  clients : List Client
  deriving DecidableEq

/-- The transport of one round of the closed system: every send succeeds and
connection `i` delivers the reply of peripheral `i` to `CENTRAL central`. -/
def sysIn (sys : System) : RoundIn :=
  { sendOk := fun _ => true
    rx := fun i =>
      match sys.clients.get? i with
      | none => { ret := 0, n := 0, cid := 0, t := 0 }
      | some cl => wireTemp (clientStep true (wireCentral sys.server.central) cl).1
    doneOk := fun _ => true }

/-- The peripherals after they have handled `CENTRAL central` of this round. -/
def sysClients (sys : System) : List Client :=
  sys.clients.map fun cl => (clientStep true (wireCentral sys.server.central) cl).2.state

/-- How a run of the closed system ends. -/
inductive SysRes where
  | exit (code : Nat) (st : Server)
  | stabilized (st : Server) (final : ℚ) (clients : List Client)
  | outOfFuel (sys : System)
  deriving DecidableEq

/-- The round loop of the coordinator with the four peripherals attached, at
most `fuel` rounds.  On stabilisation every peripheral handles `DONE final`. -/
def sysRun : Nat → System → SysRes
  | 0, sys => .outOfFuel sys
  | fuel + 1, sys =>
    match (round (sysIn sys) sys.server).2 with
    | .abort c st => .exit c st
    | .stabilized st v =>
      .stabilized st v ((sysClients sys).map fun cl => (clientStep true (wireDone v) cl).2.state)
    | .next st => sysRun fuel { server := st, clients := sysClients sys }

/-- One round of the closed system with the `break` of line 160 left out: the
new central value is stored and the loop goes on whatever `converged` says. -/
def freeRound (sys : System) : System :=
  match (round (sysIn sys) sys.server).2 with
  | .abort _ st => { server := st, clients := sysClients sys }
  | .stabilized st v =>
    { server := { st with central := v, have_last := true }, clients := sysClients sys }
  | .next st => { server := st, clients := sysClients sys }

/-- The closed system after `k` rounds of `freeRound`. -/
def freeAfter : Nat → System → System
  | 0, sys => sys
  | k + 1, sys => freeAfter k (freeRound sys)

/-- The system the programs start the round loop in: the coordinator was
started with `central`, the peripheral on connection `i` with the `i`-th
entry of `cls`, and each HELLO arrived as sent. -/
def sysInit (central : ℚ) (lastJunk : List ℚ) (cls : List Client) : System :=
  { server :=
      { central := central, ids := cls.map Client.id, curr_ext := cls.map Client.ext,
        last_ext := lastJunk, have_last := false, iter := 0 }
    clients := cls }

/-! ## `sscanf` on the four formats

A model of the C library function for the formats `"HELLO %d %lf"`,
`"TEMP %d %lf"`, `"DONE %lf"` and `"CENTRAL %lf"`, after the description of the
input item in the C standard.  `%d` yields the integer written, whatever its
size.  `%lf` converts the decimal and the hexadecimal forms to the rational
they denote.  The forms `inf`, `infinity` and `nan`, which C converts to values
that are no rationals, are reported as not converted; no statement below
derives the rejection of a line from the outcome of `%lf` on its text: lines
are shown to be rejected only by their keyword, by their id, or by the end of
the input before the temperature. -/

def isspace (c : Char) : Bool := c.toNat = 32 || (9 ≤ c.toNat && c.toNat ≤ 13)

def isdigit (c : Char) : Bool := 48 ≤ c.toNat && c.toNat ≤ 57

def skipSpace (s : List Char) : List Char := s.dropWhile isspace

/-- Value of a string of decimal digits, `acc` being the value read so far. -/
def digitsVal : List Char → Nat → Nat
  | [], acc => acc
  | c :: cs, acc => digitsVal cs (10 * acc + (c.toNat - 48))

/-- Result of one directive: converted with the input that is left, a
matching failure, or an input failure (end of the string). -/
inductive Conv (α : Type) where
  | ok (v : α) (rest : List Char)
  | matchFail
  | inputFail

/-- Ordinary characters of a format: each must be the next character. -/
def scanLit : List Char → List Char → Conv Unit
  | [], s => .ok () s
  | _ :: _, [] => .inputFail
  | c :: cs, d :: s => if c = d then scanLit cs s else .matchFail

/-- The directive `%d`. -/
def scanInt (s : List Char) : Conv Int :=
  match skipSpace s with
  | [] => .inputFail
  | c :: r =>
    let body := if c = '-' ∨ c = '+' then r else c :: r
    let ds := body.takeWhile isdigit
    if ds = [] then .matchFail
    else .ok (if c = '-' then -(digitsVal ds 0 : Int) else (digitsVal ds 0 : Int))
      (body.dropWhile isdigit)

/-- The exponent part of a floating constant applied to `m`: an optional sign
and at least one decimal digit, the exponent of `b`. -/
def scanExp (b m : ℚ) (s : List Char) : Conv ℚ :=
  match s with
  | [] => .matchFail
  | c :: r =>
    let body := if c = '-' ∨ c = '+' then r else c :: r
    let ds := body.takeWhile isdigit
    if ds = [] then .matchFail
    else .ok (if c = '-' then m / b ^ digitsVal ds 0 else m * b ^ digitsVal ds 0)
      (body.dropWhile isdigit)

/-- The decimal form of `%lf` after the sign: digits with an optional radix
point, at least one digit, and an optional exponent `e`. -/
def scanDec (neg : Bool) (body : List Char) : Conv ℚ :=
  let ip := body.takeWhile isdigit
  let r1 := body.dropWhile isdigit
  let fp := match r1 with
    | d :: r2 => if d = '.' then r2.takeWhile isdigit else []
    | [] => []
  let r3 := match r1 with
    | d :: r2 => if d = '.' then r2.dropWhile isdigit else r1
    | [] => []
  if ip = [] ∧ fp = [] then .matchFail
  else
    let a : ℚ := (digitsVal (ip ++ fp) 0 : ℚ) / 10 ^ fp.length
    let m : ℚ := if neg then -a else a
    match r3 with
    | e :: r4 => if e = 'e' ∨ e = 'E' then scanExp 10 m r4 else .ok m r3
    | [] => .ok m []

def isxdigit (c : Char) : Bool :=
  isdigit c || (97 ≤ c.toNat && c.toNat ≤ 102) || (65 ≤ c.toNat && c.toNat ≤ 70)

/-- Value of a string of hexadecimal digits, `acc` being the value read so far. -/
def hexVal : List Char → Nat → Nat
  | [], acc => acc
  | c :: cs, acc =>
    hexVal cs (16 * acc +
      (if isdigit c then c.toNat - 48 else if 97 ≤ c.toNat then c.toNat - 87 else c.toNat - 55))

/-- The hexadecimal form of `%lf` after the sign and `0x`: hexadecimal digits
with an optional radix point, at least one digit, and an optional binary
exponent `p`. -/
def scanHex (neg : Bool) (body : List Char) : Conv ℚ :=
  let ip := body.takeWhile isxdigit
  let r1 := body.dropWhile isxdigit
  let fp := match r1 with
    | d :: r2 => if d = '.' then r2.takeWhile isxdigit else []
    | [] => []
  let r3 := match r1 with
    | d :: r2 => if d = '.' then r2.dropWhile isxdigit else r1
    | [] => []
  if ip = [] ∧ fp = [] then .matchFail
  else
    let a : ℚ := (hexVal (ip ++ fp) 0 : ℚ) / 16 ^ fp.length
    let m : ℚ := if neg then -a else a
    match r3 with
    | e :: r4 => if e = 'p' ∨ e = 'P' then scanExp 2 m r4 else .ok m r3
    | [] => .ok m []

/-- The directive `%lf`: white space is skipped, then an optional sign, then
the hexadecimal form if `0x` follows and the decimal form otherwise. -/
def scanFloat (s : List Char) : Conv ℚ :=
  match skipSpace s with
  | [] => .inputFail
  | c :: r =>
    let body := if c = '-' ∨ c = '+' then r else c :: r
    match body with
    | z :: x :: h =>
      if z = '0' ∧ (x = 'x' ∨ x = 'X') then scanHex (c = '-') h else scanDec (c = '-') body
    | _ => scanDec (c = '-') body

/-- Result of `sscanf` with two conversions: the return value (`-1` is `EOF`)
and the two variables, which keep their initial `0` and `0.0` when not
assigned. -/
structure Scan2 where
  n : Int
  cid : Int
  t : ℚ
  deriving DecidableEq

/-- The call `sscanf(line, "<tag> %d %lf", &cid, &t)`. -/
def sscanf_d_lf (tag line : List Char) : Scan2 :=
  match scanLit tag line with
  | .inputFail => ⟨-1, 0, 0⟩
  | .matchFail => ⟨0, 0, 0⟩
  | .ok _ r =>
    match scanInt (skipSpace r) with
    | .inputFail => ⟨-1, 0, 0⟩
    | .matchFail => ⟨0, 0, 0⟩
    | .ok cid r1 =>
      match scanFloat (skipSpace r1) with
      | .ok t _ => ⟨2, cid, t⟩
      | _ => ⟨1, cid, 0⟩

/-- Result of `sscanf` with one conversion: the return value and the variable
`x`, which keeps its `0.0` when not assigned. -/
structure Scan1 where
  n : Int
  x : ℚ
  deriving DecidableEq

/-- The call `sscanf(line, "<tag> %lf", &x)`. -/
def sscanf_lf (tag line : List Char) : Scan1 :=
  match scanLit tag line with
  | .inputFail => ⟨-1, 0⟩
  | .matchFail => ⟨0, 0⟩
  | .ok _ r =>
    match scanFloat (skipSpace r) with
    | .ok x _ => ⟨1, x⟩
    | .inputFail => ⟨-1, 0⟩
    | .matchFail => ⟨0, 0⟩

/-- What the coordinator gets from a connection that delivers the text `line`
when it scans for `tag` (`HELLO` or `TEMP`). -/
def rxOfLine (tag line : List Char) : Rx :=
  { ret := line.length, n := (sscanf_d_lf tag line).n, cid := (sscanf_d_lf tag line).cid,
    t := (sscanf_d_lf tag line).t }

/-- What the peripheral gets from a connection that delivers the text `line`. -/
def rxcOfLine (line : List Char) : RxC :=
  { ret := line.length
    nDone := (sscanf_lf "DONE".toList line).n
    xDone := (sscanf_lf "DONE".toList line).x
    nCentral := (sscanf_lf "CENTRAL".toList line).n
    xCentral := (sscanf_lf "CENTRAL".toList line).x }

/-! ## Vocabulary of the statements -/

/-- The registry holds four pairwise different ids and the line read on
connection `i` is a well-formed TEMP that carries the `i`-th of them. -/
def OwnIds (ids : List Int) (rx : Nat → Rx) : Prop :=
  ids.length = 4 ∧ ids.Nodup ∧
    ∀ i, i < 4 → 0 < (rx i).ret ∧ (rx i).n = 2 ∧ (rx i).cid = ids.getD i 0

/-- The four temperatures read in a collect phase, by connection. -/
def vals (rx : Nat → Rx) : List ℚ := [(rx 0).t, (rx 1).t, (rx 2).t, (rx 3).t]

/-- The four receive events of a complete collect phase. -/
def recvs (rx : Nat → Rx) : List Event :=
  [Event.recvTemp 0 (rx 0).cid (rx 0).t, Event.recvTemp 1 (rx 1).cid (rx 1).t,
   Event.recvTemp 2 (rx 2).cid (rx 2).t, Event.recvTemp 3 (rx 3).cid (rx 3).t]

/-- The four CENTRAL messages of a complete broadcast phase. -/
def centrals (v : ℚ) : List Event :=
  [Event.sendCentral 0 v, Event.sendCentral 1 v, Event.sendCentral 2 v, Event.sendCentral 3 v]

/-- The four DONE messages. -/
def dones (v : ℚ) : List Event :=
  [Event.sendDone 0 v, Event.sendDone 1 v, Event.sendDone 2 v, Event.sendDone 3 v]

/-- The arrays after a collect phase in which every slot was written once:
`curr_ext` holds the new values, `last_ext` the old ones if `have_last`. -/
def collected (rx : Nat → Rx) (st : Server) : Server :=
  { st with curr_ext := vals rx, last_ext := if st.have_last then st.curr_ext else st.last_ext }

/-- State after `iter++` and such a collect phase. -/
def collectedOf (inp : RoundIn) (st : Server) : Server :=
  collected inp.rx { st with iter := st.iter + 1 }

/-- Lines 163-164: `central = new_central; have_last = true`. -/
def advanced (s : Server) : Server :=
  { s with central := new_central s, have_last := true }


/-- The connection was accepted and its first line is a well-formed HELLO. -/
def HelloOk (h : Hello) : Prop := h.acceptOk = true ∧ 0 < h.rx.ret ∧ h.rx.n = 2

/-- Four peripherals that all announce id 1 with temperature 10. -/
def sameIdHello : Nat → Hello := fun _ =>
  { acceptOk := true, rx := rxOfLine "HELLO".toList "HELLO 1 10.0".toList }

/-- A transport on which every send succeeds and no peripheral answers. -/
def silentPeers : RoundIn := { sendOk := fun _ => true, rx := fun _ => ⟨0, 0, 0, 0⟩, doneOk := fun _ => true }

/-- A transport on which every send succeeds and connection `i` delivers
`TEMP i+1 t`, the same in every round. -/
def steadyEnv (t : ℚ) : Nat → RoundIn := fun _ =>
  { sendOk := fun _ => true, rx := fun i => ⟨1, 2, (i : Int) + 1, t⟩, doneOk := fun _ => true }

/-- A coordinator that has registered ids 1 to 4, each with temperature 10,
and starts from central temperature 0. -/
def steadyInit : Server :=
  { central := 0, ids := [1, 2, 3, 4], curr_ext := [10, 10, 10, 10], last_ext := [0, 0, 0, 0],
    have_last := false, iter := 0 }

/-- The text read on connection `i` in a round in which the first line has
text after its last field. -/
def trailingLines : Nat → List Char
  | 0 => "TEMP 1 2.5 junk".toList
  | 1 => "TEMP 2 2.5".toList
  | 2 => "TEMP 3 2.5".toList
  | _ => "TEMP 4 2.5".toList

/-- The transport of that round. -/
def trailingIn : RoundIn :=
  { sendOk := fun _ => true, rx := fun i => rxOfLine "TEMP".toList (trailingLines i),
    doneOk := fun _ => true }

/-- A transport on which every send succeeds and every connection delivers
`TEMP 9 5`, an id that `steadyInit` has not registered. -/
def strangerEnv : Nat → RoundIn := fun _ =>
  { sendOk := fun _ => true, rx := fun _ => ⟨1, 2, 9, 5⟩, doneOk := fun _ => true }

/-- A transport on which every send succeeds and every connection delivers
the text `line`, scanned as a TEMP message. -/
def lineEnv (line : List Char) : Nat → RoundIn := fun _ =>
  { sendOk := fun _ => true, rx := fun _ => rxOfLine "TEMP".toList line, doneOk := fun _ => true }

/-- Registration in which every connection delivers the text `line`. -/
def lineHello (line : List Char) : Nat → Hello := fun _ =>
  { acceptOk := true, rx := rxOfLine "HELLO".toList line }

/-- Registration in which no connection can be accepted. -/
def noHello : Nat → Hello := fun _ => { acceptOk := false, rx := ⟨0, 0, 0, 0⟩ }

/-- The closed system in which the coordinator holds `c`, has registered the
ids `i0 .. i3` and last collected `e0 .. e3`, and the peripheral on connection
`k` has id `ik` and holds `ek`. -/
def mkSys (c : ℚ) (i0 i1 i2 i3 : Int) (e0 e1 e2 e3 : ℚ) (las : List ℚ) (hl : Bool) (it : Nat) :
    System :=
  { server := ⟨c, [i0, i1, i2, i3], [e0, e1, e2, e3], las, hl, it⟩
    clients := [⟨i0, e0⟩, ⟨i1, e1⟩, ⟨i2, e2⟩, ⟨i3, e3⟩] }

/-- Line 83 of `client.c`: `new_ext` from `ext = e` and `central = c`. -/
def new_ext (e c : ℚ) : ℚ := (3 * e + 2 * c) / 5

/-- Line 143 of `server.c` applied to the four replies to `CENTRAL c`. -/
def central_of (c e0 e1 e2 e3 : ℚ) : ℚ :=
  (2 * c + new_ext e0 c + new_ext e1 c + new_ext e2 c + new_ext e3 c) / 6

/-- The coming round of the closed system ends with stabilisation. -/
def stableAt (sys : System) : Bool :=
  converged (collectedOf (sysIn sys) sys.server)

/-- The seed scenario: central temperature 0, peripherals 1 to 4 each at 10. -/
def seed : System := sysInit 0 [0, 0, 0, 0] [⟨1, 10⟩, ⟨2, 10⟩, ⟨3, 10⟩, ⟨4, 10⟩]

/-- The coordinator's variables at the end of a run of the closed system. -/
def SysRes.server : SysRes → Server
  | .exit _ st => st
  | .stabilized st _ _ => st
  | .outOfFuel sys => sys.server

/-- The four `delta` of lines 135-136 for the arrays as they are. -/
def deltas (st : Server) : List ℚ :=
  (List.range NCLIENTS).map fun i => |st.curr_ext.getD i 0 - st.last_ext.getD i 0|

/-- Sum of the four differences between a peripheral's value and the central one. -/
def spread (c e0 e1 e2 e3 : ℚ) : ℚ := (e0 - c) + (e1 - c) + (e2 - c) + (e3 - c)

/-- A constant for the geometric bound, from the initial values. -/
def bound0 (c e0 e1 e2 e3 : ℚ) : ℚ :=
  |e0 - c - spread c e0 e1 e2 e3 / 4| + |e1 - c - spread c e0 e1 e2 e3 / 4| +
    |e2 - c - spread c e0 e1 e2 e3 / 4| + |e3 - c - spread c e0 e1 e2 e3 / 4| +
    |spread c e0 e1 e2 e3 / 4|

/-- Number of CENTRAL messages sent in a trace. -/
def nCentral (tr : List Event) : Nat :=
  tr.countP fun e => match e with
    | .sendCentral _ _ => true
    | _ => false

/-- Number of TEMP messages received in a trace. -/
def nRecv (tr : List Event) : Nat :=
  tr.countP fun e => match e with
    | .recvTemp _ _ _ => true
    | _ => false

/-- Number of TEMP messages received on connection `c` in a trace. -/
def nRecvOn (c : Nat) (tr : List Event) : Nat :=
  tr.countP fun e => match e with
    | .recvTemp i _ _ => decide (i = c)
    | _ => false

/-- Number of DONE messages sent in a trace. -/
def nDone (tr : List Event) : Nat :=
  tr.countP fun e => match e with
    | .sendDone _ _ => true
    | _ => false

/-- The round barrier at one event `e` that follows the events `pre`, with `k`
the number of rounds completed before.
A CENTRAL on connection `i` is the `i`-th of round `k + 1`: by then exactly `k`
TEMP have been read on each connection and nothing else.
A TEMP read on connection `i` comes after all four CENTRAL of its round, after
one more TEMP on each connection before `i` and none on the others.
A DONE comes after a collect phase in which every connection was read once. -/
def BarrierAt (pre : List Event) : Event → Prop
  | .sendCentral i _ =>
    ∃ k, i < 4 ∧ nCentral pre = 4 * k + i ∧ nRecv pre = 4 * k ∧
      (∀ c, c < 4 → nRecvOn c pre = k) ∧ nDone pre = 0
  | .recvTemp i _ _ =>
    ∃ k, i < 4 ∧ nCentral pre = 4 * (k + 1) ∧ nRecv pre = 4 * k + i ∧
      (∀ c, c < 4 → nRecvOn c pre = if c < i then k + 1 else k) ∧ nDone pre = 0
  | .sendDone i _ =>
    ∃ k, i < 4 ∧ nCentral pre = 4 * (k + 1) ∧ nRecv pre = 4 * (k + 1) ∧
      (∀ c, c < 4 → nRecvOn c pre = k + 1)

/-- Every event of `tr` respects the barrier when `acc` came before `tr`. -/
def BarrierFrom (acc tr : List Event) : Prop :=
  ∀ pre e post, tr = pre ++ e :: post → BarrierAt (acc ++ pre) e

/-! ## The coordinator over the arithmetic of `double`

`server.c` decides convergence with the subtraction, negation and comparisons
of the type `double`.  The definitions of this section are the round loop once
more, with the temperature type `V` and its operations as a parameter, so that
what is proved about them holds for the machine arithmetic as well as for the
exact one. -/

namespace Mach

/-- The constants and operations of the temperature type that lines 132-143 of
`server.c` use: the literals `0`, `2.0`, `6.0`, the constant `EPS`, the four
arithmetic operations, unary minus, and the comparisons `<` and `>`. -/
structure Arith (V : Type) where
  zero : V
  two : V
  six : V
  eps : V
  add : V → V → V
  sub : V → V → V
  mul : V → V → V
  div : V → V → V
  neg : V → V
  lt : V → V → Bool
  gt : V → V → Bool

/-- Outcome of `recv_line` followed by `sscanf(line, "TEMP %d %lf", &cid, &t)`. -/
structure Rx (V : Type) where
  ret : Int
  n : Int
  cid : Int
  t : V

/-- Local variables of `main` in `server.c` that live across rounds. -/
structure Server (V : Type) where
  central : V
  ids : List Int
  curr_ext : List V
  last_ext : List V
  have_last : Bool
  iter : Nat

/-- What the transport does during one round. -/
structure RoundIn (V : Type) where
  sendOk : Nat → Bool
  rx : Nat → Rx V
  doneOk : Nat → Bool

/-- The broadcast loop of lines 101-105: `false` when a `send_line` failed. -/
def broadcastFrom (sendOk : Nat → Bool) : Nat → Nat → Bool
  | 0, _ => true
  | n + 1, i => if sendOk i then broadcastFrom sendOk n (i + 1) else false

/-- The lookup loop of lines 118-125. -/
def placeFrom {V : Type} (A : Arith V) (cid : Int) (t : V) : Nat → Nat → Server V → Option (Server V)
  | 0, _, _ => none
  | n + 1, k, st =>
    if st.ids.getD k 0 = cid then
      some { st with
        last_ext := if st.have_last then st.last_ext.set k (st.curr_ext.getD k A.zero)
                    else st.last_ext
        curr_ext := st.curr_ext.set k t }
    else placeFrom A cid t n (k + 1) st

/-- The collect loop of lines 107-130; `none` is `return 1`. -/
def collectFrom {V : Type} (A : Arith V) (rx : Nat → Rx V) : Nat → Nat → Server V → Option (Server V)
  | 0, _, st => some st
  | n + 1, i, st =>
    if (rx i).ret ≤ 0 then none
    else if (rx i).n ≠ 2 then none
    else
      match placeFrom A (rx i).cid (rx i).t NCLIENTS 0 st with
      | none => none
      | some st1 => collectFrom A rx n (i + 1) st1

/-- Lines 135-137 for one peripheral with `curr_ext[i] = a` and
`last_ext[i] = b`: `delta = a - b`, negated `if (delta < 0)`, then the test
`delta > EPS`. -/
def exceeds {V : Type} (A : Arith V) (a b : V) : Bool :=
  let delta := A.sub a b
  let delta := if A.lt delta A.zero then A.neg delta else delta
  A.gt delta A.eps

/-- The loop of lines 134-138. -/
def deltaFrom {V : Type} (A : Arith V) (st : Server V) : Nat → Nat → Bool
  | 0, _ => true
  | n + 1, i =>
    if exceeds A (st.curr_ext.getD i A.zero) (st.last_ext.getD i A.zero) then false
    else deltaFrom A st n (i + 1)

/-- Lines 132-139: `converged`. -/
def converged {V : Type} (A : Arith V) (st : Server V) : Bool :=
  if st.have_last then deltaFrom A st NCLIENTS 0 else false

/-- The loop of line 142. -/
def sumFrom {V : Type} (A : Arith V) (curr : List V) : Nat → Nat → V → V
  | 0, _, acc => acc
  | n + 1, i, acc => sumFrom A curr n (i + 1) (A.add acc (curr.getD i A.zero))

/-- Lines 141-143: `new_central`. -/
def new_central {V : Type} (A : Arith V) (st : Server V) : V :=
  A.div (A.add (A.mul A.two st.central) (sumFrom A st.curr_ext NCLIENTS 0 A.zero)) A.six

/-- How one pass through the body of `for (;;)` ends. -/
inductive RoundRes (V : Type) where
  | abort (code : Nat)
  | stabilized (st : Server V) (final : V)
  | next (st : Server V)

/-- One pass through the body of `for (;;)`, lines 99-164. -/
def round {V : Type} (A : Arith V) (inp : RoundIn V) (st0 : Server V) : RoundRes V :=
  let st := { st0 with iter := st0.iter + 1 }
  if broadcastFrom inp.sendOk NCLIENTS 0 = false then .abort 1
  else
    match collectFrom A inp.rx NCLIENTS 0 st with
    | none => .abort 1
    | some st1 =>
      if converged A st1 then .stabilized st1 (new_central A st1)
      else .next { st1 with central := new_central A st1, have_last := true }

/-- The state in which the round loop is after `k` passes that all ended at
line 164; `none` if the loop was left before. -/
def stateAfter {V : Type} (A : Arith V) (env : Nat → RoundIn V) : Nat → Server V → Option (Server V)
  | 0, st => some st
  | k + 1, st =>
    match round A (env (st.iter + 1)) st with
    | .next st1 => stateAfter A env k st1
    | _ => none

/-- Four pairwise different ids are registered and the line read on connection
`i` is a well-formed TEMP that carries the `i`-th of them. -/
def OwnIds {V : Type} (ids : List Int) (rx : Nat → Rx V) : Prop :=
  ids.length = 4 ∧ ids.Nodup ∧
    ∀ i, i < 4 → 0 < (rx i).ret ∧ (rx i).n = 2 ∧ (rx i).cid = ids.getD i 0

/-- The exact arithmetic. -/
def exact : Arith ℚ :=
  { zero := 0, two := 2, six := 6, eps := EPS, add := (· + ·), sub := (· - ·), mul := (· * ·),
    div := (· / ·), neg := fun a => -a, lt := fun a b => decide (a < b),
    gt := fun a b => decide (a > b) }

/-- Exact numbers together with a not-a-number `none`: an operation with a
`none` operand gives `none`, a comparison with a `none` operand is false, as
for the NaN of `double`. -/
def withNaN : Arith (Option ℚ) :=
  { zero := some 0, two := some 2, six := some 6, eps := some EPS
    add := fun a b => match a, b with
      | some x, some y => some (x + y)
      | _, _ => none
    sub := fun a b => match a, b with
      | some x, some y => some (x - y)
      | _, _ => none
    mul := fun a b => match a, b with
      | some x, some y => some (x * y)
      | _, _ => none
    div := fun a b => match a, b with
      | some x, some y => some (x / y)
      | _, _ => none
    neg := fun a => match a with
      | some x => some (-x)
      | none => none
    lt := fun a b => match a, b with
      | some x, some y => decide (x < y)
      | _, _ => false
    gt := fun a b => match a, b with
      | some x, some y => decide (x > y)
      | _, _ => false }

/-- The absolute difference of `a` and `b` is a number and at most `EPS`. -/
def withinEps (a b : Option ℚ) : Prop :=
  ∃ x y, a = some x ∧ b = some y ∧ |x - y| ≤ EPS

/-- The arrays after a collect phase in which every slot was written once. -/
def collectedOf {V : Type} (inp : Mach.RoundIn V) (st : Mach.Server V) : Mach.Server V :=
  { st with
    curr_ext := [(inp.rx 0).t, (inp.rx 1).t, (inp.rx 2).t, (inp.rx 3).t]
    last_ext := if st.have_last then st.curr_ext else st.last_ext
    iter := st.iter + 1 }

/-- Lines 163-164: `central = new_central; have_last = true`. -/
def advanced {V : Type} (A : Mach.Arith V) (s : Mach.Server V) : Mach.Server V :=
  { s with central := Mach.new_central A s, have_last := true }

/-- A transport on which every send succeeds and connection `i` delivers
`TEMP i+1 t i` in every round. -/
def sameEnv {V : Type} (t : Nat → V) : Nat → Mach.RoundIn V := fun _ =>
  { sendOk := fun _ => true, rx := fun i => ⟨1, 2, (i : Int) + 1, t i⟩, doneOk := fun _ => true }

/-- The transport of a run in which the first peripheral was started with
`nan` and the other three with 10, the coordinator with 0: in round 1 the
replies are `nan, 6, 6, 6`, and from round 2 on, the central value being
`nan`, every reply is `nan`. -/
def nanEnv : Nat → Mach.RoundIn (Option ℚ) := fun r =>
  { sendOk := fun _ => true
    rx := fun i => ⟨1, 2, (i : Int) + 1, if r ≤ 1 ∧ 0 < i then some 6 else none⟩
    doneOk := fun _ => true }

/-- The coordinator of that run when it enters the round loop. -/
def nanInit : Mach.Server (Option ℚ) :=
  { central := some 0, ids := [1, 2, 3, 4], curr_ext := [none, some 10, some 10, some 10],
    last_ext := [some 0, some 0, some 0, some 0], have_last := false, iter := 0 }

/-- A coordinator over the exact arithmetic that has registered ids 1 to 4 at
temperature 10 and starts from central value 0. -/
def exactInit : Mach.Server ℚ :=
  { central := 0, ids := [1, 2, 3, 4], curr_ext := [10, 10, 10, 10], last_ext := [0, 0, 0, 0],
    have_last := false, iter := 0 }

end Mach

/-! ## Theorems -/

set_option linter.unusedVariables false

theorem len4 {α : Type} (l : List α) (h : l.length = 4) : ∃ a b c d, l = [a, b, c, d] := by
  match l, h with
  | [a, b, c, d], _ => exact ⟨a, b, c, d, rfl⟩

theorem collect_own_aux (i0 i1 i2 i3 : Int) (c : ℚ) (p0 p1 p2 p3 l0 l1 l2 l3 : ℚ) (hl : Bool) (it : Nat)
    (rx : Nat → Rx) (h : OwnIds [i0, i1, i2, i3] rx) :
    collectFrom rx NCLIENTS 0 ⟨c, [i0, i1, i2, i3], [p0, p1, p2, p3], [l0, l1, l2, l3], hl, it⟩ =
      (recvs rx,
       .ok ⟨c, [i0, i1, i2, i3], vals rx,
            if hl then [p0, p1, p2, p3] else [l0, l1, l2, l3], hl, it⟩) := by
  obtain ⟨-, hnd, hr⟩ := h
  obtain ⟨a0, b0, c0⟩ := hr 0 (by norm_num)
  obtain ⟨a1, b1, c1⟩ := hr 1 (by norm_num)
  obtain ⟨a2, b2, c2⟩ := hr 2 (by norm_num)
  obtain ⟨a3, b3, c3⟩ := hr 3 (by norm_num)
  simp at c0 c1 c2 c3
  simp at hnd
  obtain ⟨⟨h01, h02, h03⟩, ⟨h12, h13⟩, h23⟩ := hnd
  cases hl <;>
  simp [collectFrom, placeFrom, NCLIENTS, recvs, vals, a0, a1, a2, a3, b0, b1, b2, b3, c0, c1, c2, c3,
    not_le.mpr, h01, h02, h03, h12, h13, h23, Ne.symm h01, Ne.symm h02, Ne.symm h03, Ne.symm h12, Ne.symm h13, Ne.symm h23]

theorem collect_own (rx : Nat → Rx) (st : Server) (h : OwnIds st.ids rx)
    (hc : st.curr_ext.length = 4) (hl : st.last_ext.length = 4) :
    collectFrom rx NCLIENTS 0 st = (recvs rx, .ok (collected rx st)) := by
  obtain ⟨c, ids, cur, las, hv, it⟩ := st
  obtain ⟨i0, i1, i2, i3, rfl⟩ := len4 ids h.1
  obtain ⟨p0, p1, p2, p3, rfl⟩ := len4 cur hc
  obtain ⟨l0, l1, l2, l3, rfl⟩ := len4 las hl
  rw [collect_own_aux i0 i1 i2 i3 c p0 p1 p2 p3 l0 l1 l2 l3 hv it rx h]
  rfl

theorem broadcast_ok (v : ℚ) (sendOk : Nat → Bool) (h : ∀ i, i < 4 → sendOk i = true) :
    broadcastFrom v sendOk NCLIENTS 0 = (centrals v, true) := by
  simp [broadcastFrom, NCLIENTS, centrals, h]

theorem done_ok (v : ℚ) (doneOk : Nat → Bool) (h : ∀ i, i < 4 → doneOk i = true) :
    doneFrom v doneOk NCLIENTS 0 = dones v := by
  simp [doneFrom, NCLIENTS, dones, h]

theorem converged_iff (st : Server) :
    converged st = true ↔
      st.have_last = true ∧ ∀ i, i < 4 → |st.curr_ext.getD i 0 - st.last_ext.getD i 0| ≤ EPS := by
  have habs : ∀ d : ℚ, (if d < 0 then -d else d) = |d| := by
    intro d
    split_ifs with h
    · exact (abs_of_neg h).symm
    · exact (abs_of_nonneg (not_lt.mp h)).symm
  unfold converged
  cases hh : st.have_last
  · simp
  · simp only [if_true, true_and]
    simp only [deltaFrom, NCLIENTS, habs, gt_iff_lt]
    constructor
    · intro h i hi
      simp at h
      obtain ⟨h0, h1, h2, h3⟩ := h
      interval_cases i <;> simp only [List.getD_eq_getElem?_getD] <;> assumption
    · intro h
      have h0 := h 0 (by norm_num)
      have h1 := h 1 (by norm_num)
      have h2 := h 2 (by norm_num)
      have h3 := h 3 (by norm_num)
      simp only [not_lt.mpr h0, not_lt.mpr h1, not_lt.mpr h2, not_lt.mpr h3, if_false]

theorem new_central_eq (c : ℚ) (ids : List Int) (t0 t1 t2 t3 : ℚ) (las : List ℚ) (hv : Bool) (it : Nat) :
    new_central ⟨c, ids, [t0, t1, t2, t3], las, hv, it⟩ = (2 * c + t0 + t1 + t2 + t3) / 6 := by
  simp [new_central, sumFrom, NCLIENTS]
  ring

theorem round_own (inp : RoundIn) (st : Server) (h : OwnIds st.ids inp.rx)
    (hs : ∀ i, i < 4 → inp.sendOk i = true)
    (hc : st.curr_ext.length = 4) (hl : st.last_ext.length = 4) :
    round inp st =
      if converged (collectedOf inp st) then
        (centrals st.central ++ recvs inp.rx ++
            doneFrom (new_central (collectedOf inp st)) inp.doneOk NCLIENTS 0,
          .stabilized (collectedOf inp st) (new_central (collectedOf inp st)))
      else
        (centrals st.central ++ recvs inp.rx, .next (advanced (collectedOf inp st))) := by
  unfold round
  simp only [broadcast_ok st.central inp.sendOk hs]
  rw [collect_own inp.rx { st with iter := st.iter + 1 } h hc hl]
  simp [collectedOf, advanced]

theorem round_sends_central (inp : RoundIn) (st : Server) (hs : ∀ i, i < 4 → inp.sendOk i = true) :
    centrals st.central <+: (round inp st).1 := by
  unfold round
  simp only [broadcast_ok st.central inp.sendOk hs]
  simp only [Bool.true_eq_false, if_false]
  split
  · exact List.prefix_append _ _
  · split_ifs
    · rw [List.append_assoc]; exact List.prefix_append _ _
    · exact List.prefix_append _ _

theorem new_central_collectedOf (inp : RoundIn) (st : Server) :
    new_central (collectedOf inp st) =
      (2 * st.central + (inp.rx 0).t + (inp.rx 1).t + (inp.rx 2).t + (inp.rx 3).t) / 6 := by
  simp [collectedOf, collected, vals, new_central, sumFrom, NCLIENTS]
  ring

/-- C2. Update rule of the coordinator.  In a round entered with central value
`c` in which the four connections (pairwise different ids, each answering with
its own) report `t0 .. t3`, the new central value is `(2 * c + t0 + t1 + t2 +
t3) / 6`.  Either the round is not converged: the events of the round are the
four `CENTRAL c` and the four receives, the new value is stored as the central
value and is the one the next round broadcasts first.  Or the round is
converged: the events end with four `DONE` carrying that same new value. -/
theorem C2_update_rule (inp : RoundIn) (st : Server)
    (hown : OwnIds st.ids inp.rx) (hs : ∀ i, i < 4 → inp.sendOk i = true)
    (hd : ∀ i, i < 4 → inp.doneOk i = true)
    (hc : st.curr_ext.length = 4) (hl : st.last_ext.length = 4) :
    (∃ s, round inp st = (centrals st.central ++ recvs inp.rx, RoundRes.next s) ∧
        s.central =
          (2 * st.central + (inp.rx 0).t + (inp.rx 1).t + (inp.rx 2).t + (inp.rx 3).t) / 6 ∧
        ∀ inp1 : RoundIn, (∀ i, i < 4 → inp1.sendOk i = true) →
          centrals ((2 * st.central + (inp.rx 0).t + (inp.rx 1).t + (inp.rx 2).t + (inp.rx 3).t) / 6)
            <+: (round inp1 s).1) ∨
    (∃ s, round inp st =
        (centrals st.central ++ recvs inp.rx ++
            dones ((2 * st.central + (inp.rx 0).t + (inp.rx 1).t + (inp.rx 2).t + (inp.rx 3).t) / 6),
          RoundRes.stabilized s
            ((2 * st.central + (inp.rx 0).t + (inp.rx 1).t + (inp.rx 2).t + (inp.rx 3).t) / 6))) := by
  rw [round_own inp st hown hs hc hl, done_ok _ _ hd, new_central_collectedOf]
  by_cases hcv : converged (collectedOf inp st) = true
  · right
    exact ⟨collectedOf inp st, by rw [if_pos hcv]⟩
  · left
    refine ⟨advanced (collectedOf inp st), by rw [if_neg hcv], ?_, ?_⟩
    · exact new_central_collectedOf inp st
    · intro inp1 h1
      have := round_sends_central inp1 (advanced (collectedOf inp st)) h1
      rwa [show (advanced (collectedOf inp st)).central = _ from new_central_collectedOf inp st] at this

theorem tagC : "CENTRAL".toList = ['C', 'E', 'N', 'T', 'R', 'A', 'L'] := by decide
theorem tagD : "DONE".toList = ['D', 'O', 'N', 'E'] := by decide

theorem central_not_done (line : List Char) (h : (sscanf_lf "CENTRAL".toList line).n = 1) :
    (sscanf_lf "DONE".toList line).n ≠ 1 ∧ 0 < (line.length : Int) := by
  rw [tagC] at h
  rw [tagD]
  cases line with
  | nil => simp [sscanf_lf, scanLit] at h
  | cons c r =>
    by_cases hc : c = 'C'
    · subst hc
      simp [sscanf_lf, scanLit]
    · simp [sscanf_lf, scanLit, Ne.symm hc] at h

theorem done_nonempty (line : List Char) (h : (sscanf_lf "DONE".toList line).n = 1) :
    0 < (line.length : Int) := by
  rw [tagD] at h
  cases line with
  | nil => simp [sscanf_lf, scanLit] at h
  | cons c r => simp

theorem clientStep_central (st : Client) (rx : RxC) (h0 : 0 < rx.ret) (h1 : rx.nDone ≠ 1)
    (h2 : rx.nCentral = 1) :
    clientStep true rx st =
      ([CEvent.sendTemp st.id ((3 * st.ext + 2 * rx.xCentral) / 5)],
        ClientRes.again { id := st.id, ext := (3 * st.ext + 2 * rx.xCentral) / 5 }) := by
  simp [clientStep, not_le.mpr h0, h1, h2]

theorem clientStep_done (sendOk : Bool) (st : Client) (rx : RxC) (h0 : 0 < rx.ret)
    (h1 : rx.nDone = 1) : clientStep sendOk rx st = ([], ClientRes.exit 0 st) := by
  simp [clientStep, not_le.mpr h0, h1]

/-- C3. Update rule of the peripheral.  On a line that `sscanf` reads as
`CENTRAL c` a peripheral with id `i` and value `e` sends exactly one
`TEMP i ((3 * e + 2 * c) / 5)`, keeps that value as its own and goes on with
its loop.  On a line that reads as `DONE v` it sends nothing, keeps its value
and ends. -/
theorem C3_peripheral_update (st : Client) (line : List Char) :
    (∀ c, sscanf_lf "CENTRAL".toList line = ⟨1, c⟩ →
      clientStep true (rxcOfLine line) st =
        ([CEvent.sendTemp st.id ((3 * st.ext + 2 * c) / 5)],
          ClientRes.again { id := st.id, ext := (3 * st.ext + 2 * c) / 5 })) ∧
    (∀ v, sscanf_lf "DONE".toList line = ⟨1, v⟩ →
      ∀ sendOk, clientStep sendOk (rxcOfLine line) st = ([], ClientRes.exit 0 st)) := by
  constructor
  · intro c h
    have hn : (sscanf_lf "CENTRAL".toList line).n = 1 := by rw [h]
    have hx : (rxcOfLine line).xCentral = c := by
      show (sscanf_lf "CENTRAL".toList line).x = c
      rw [h]
    obtain ⟨h1, h2⟩ := central_not_done line hn
    rw [clientStep_central st (rxcOfLine line) h2 h1 hn, hx]
  · intro v h sendOk
    have hn : (sscanf_lf "DONE".toList line).n = 1 := by rw [h]
    exact clientStep_done sendOk st (rxcOfLine line) (done_nonempty line hn) hn

/-- The rule of C3 on the lines `CENTRAL 4.000000000000` and
`DONE 5.000000000000`. -/
theorem C3_peripheral_update_witness :
    (sscanf_lf "CENTRAL".toList "CENTRAL 4.000000000000".toList = ⟨1, 4⟩ ∧
      clientStep true (rxcOfLine "CENTRAL 4.000000000000".toList) ⟨3, 6⟩ =
        ([CEvent.sendTemp 3 ((3 * 6 + 2 * 4) / 5)],
          ClientRes.again { id := 3, ext := (3 * 6 + 2 * 4) / 5 })) ∧
    (sscanf_lf "DONE".toList "DONE 5.000000000000".toList = ⟨1, 5⟩ ∧
      clientStep false (rxcOfLine "DONE 5.000000000000".toList) ⟨3, 6⟩ = ([], ClientRes.exit 0 ⟨3, 6⟩)) := by
  have hc : sscanf_lf "CENTRAL".toList "CENTRAL 4.000000000000".toList = ⟨1, 4⟩ := by
    simp [sscanf_lf, scanLit, scanFloat, scanDec, skipSpace, isspace, isdigit, digitsVal]
    norm_num
  have hd : sscanf_lf "DONE".toList "DONE 5.000000000000".toList = ⟨1, 5⟩ := by
    simp [sscanf_lf, scanLit, scanFloat, scanDec, skipSpace, isspace, isdigit, digitsVal]
    norm_num
  exact ⟨⟨hc, (C3_peripheral_update ⟨3, 6⟩ _).1 4 hc⟩, ⟨hd, (C3_peripheral_update ⟨3, 6⟩ _).2 5 hd false⟩⟩

theorem place_ids (cid : Int) (t : ℚ) (n k : Nat) (st s : Server)
    (h : placeFrom cid t n k st = some s) : s.ids = st.ids := by
  induction n generalizing k with
  | zero => simp [placeFrom] at h
  | succ n ih =>
    unfold placeFrom at h
    by_cases h1 : st.ids.getD k 0 = cid
    · rw [if_pos h1] at h
      simp only [Option.some.injEq] at h
      rw [← h]
    · rw [if_neg h1] at h
      exact ih (k + 1) h

theorem collect_ids (rx : Nat → Rx) (n i : Nat) (st : Server) :
    ∀ s, ((collectFrom rx n i st).2 = Collected.ok s ∨ (collectFrom rx n i st).2 = Collected.fail s) →
      s.ids = st.ids := by
  induction n generalizing i st with
  | zero => intro s h; simp [collectFrom] at h; rw [h]
  | succ n ih =>
    intro s h
    unfold collectFrom at h
    split_ifs at h with h1 h2
    · simp at h; rw [h]
    · simp at h; rw [h]
    · split at h
      · simp at h; rw [h]
      · rename_i st1 hp
        rw [ih (i + 1) st1 s h]
        exact place_ids _ _ _ _ _ _ hp

theorem place_none_iff (cid : Int) (t : ℚ) (st : Server) (hlen : st.ids.length = 4) :
    placeFrom cid t NCLIENTS 0 st = none ↔ cid ∉ st.ids := by
  obtain ⟨c, ids, cur, las, hv, it⟩ := st
  obtain ⟨i0, i1, i2, i3, rfl⟩ := len4 ids hlen
  simp only [placeFrom, NCLIENTS]
  by_cases h0 : i0 = cid
  · simp [h0]
  · by_cases h1 : i1 = cid
    · simp [h0, h1]
    · by_cases h2 : i2 = cid
      · simp [h0, h1, h2]
      · by_cases h3 : i3 = cid
        · simp [h0, h1, h2, h3]
        · simp [h0, h1, h2, h3, Ne.symm h0, Ne.symm h1, Ne.symm h2, Ne.symm h3]

theorem collect_split (rx : Nat → Rx) (a m k : Nat) (st st1 : Server) (ev : List Event)
    (h : collectFrom rx a k st = (ev, Collected.ok st1)) :
    collectFrom rx (a + m) k st =
      (ev ++ (collectFrom rx m (k + a) st1).1, (collectFrom rx m (k + a) st1).2) := by
  induction a generalizing k st ev with
  | zero =>
    simp [collectFrom] at h
    obtain ⟨rfl, rfl⟩ := h
    simp
  | succ a ih =>
    rw [show a + 1 + m = (a + m) + 1 by omega]
    rw [collectFrom] at h
    conv_lhs => rw [collectFrom]
    by_cases h1 : (rx k).ret ≤ 0
    · simp [h1] at h
    · by_cases h2 : (rx k).n ≠ 2
      · simp [h1, h2] at h
      · rw [if_neg h1, if_neg h2] at h ⊢
        cases hp : placeFrom (rx k).cid (rx k).t NCLIENTS 0 st with
        | none => simp [hp] at h
        | some s2 =>
          simp only [hp] at h ⊢
          have hh : collectFrom rx a (k + 1) s2 =
              ((collectFrom rx a (k + 1) s2).1, Collected.ok st1) := by
            rw [Prod.ext_iff]; exact ⟨rfl, (Prod.ext_iff.mp h).2⟩
          rw [ih (k + 1) s2 _ hh]
          have he : ev = Event.recvTemp k (rx k).cid (rx k).t :: (collectFrom rx a (k + 1) s2).1 :=
            (Prod.ext_iff.mp h).1.symm
          rw [he, show k + 1 + a = k + (a + 1) by omega]
          simp

theorem run_abort (env : Nat → RoundIn) (fuel : Nat) (st st1 : Server) (ev : List Event)
    (hs : ∀ j, j < 4 → (env (st.iter + 1)).sendOk j = true)
    (h : collectFrom (env (st.iter + 1)).rx NCLIENTS 0 { st with iter := st.iter + 1 } =
      (ev, Collected.fail st1)) :
    run env (fuel + 1) st = (centrals st.central ++ ev, RunRes.exit 1 st1) := by
  have hr : round (env (st.iter + 1)) st = (centrals st.central ++ ev, RoundRes.abort 1 st1) := by
    unfold round
    simp only [broadcast_ok st.central _ hs, h]
    simp
  simp [run, hr]

/-- C6. Unknown id.  The collect loop of a round has read `i` lines without
error, which left the state `st1` and the events `ev`, and line `i` is a
well-formed TEMP.  If its id is none of the four registered ids the run ends
with exit status 1 in state `st1`, no array entry and no central value
changed, and the receive is the last event: no CENTRAL or DONE follows.  If its id is
registered the value is stored and the loop goes on. -/
theorem C6_unknown_id (env : Nat → RoundIn) (fuel : Nat) (st st1 : Server) (ev : List Event) (i : Nat)
    (hlen : st.ids.length = 4) (hs : ∀ j, j < 4 → (env (st.iter + 1)).sendOk j = true)
    (hi : i < 4)
    (hpre : collectFrom (env (st.iter + 1)).rx i 0 { st with iter := st.iter + 1 } =
      (ev, Collected.ok st1))
    (hret : 0 < ((env (st.iter + 1)).rx i).ret) (hn : ((env (st.iter + 1)).rx i).n = 2) :
    (((env (st.iter + 1)).rx i).cid ∉ st.ids →
      run env (fuel + 1) st =
        (centrals st.central ++ ev ++
            [Event.recvTemp i ((env (st.iter + 1)).rx i).cid ((env (st.iter + 1)).rx i).t],
          RunRes.exit 1 st1)) ∧
    (((env (st.iter + 1)).rx i).cid ∈ st.ids →
      ∃ st2, placeFrom ((env (st.iter + 1)).rx i).cid ((env (st.iter + 1)).rx i).t NCLIENTS 0 st1 =
          some st2 ∧
        collectFrom (env (st.iter + 1)).rx (i + 1) 0 { st with iter := st.iter + 1 } =
          (ev ++ [Event.recvTemp i ((env (st.iter + 1)).rx i).cid ((env (st.iter + 1)).rx i).t],
            Collected.ok st2)) := by
  have hids : st1.ids = st.ids :=
    collect_ids _ i 0 { st with iter := st.iter + 1 } st1 (Or.inl (by rw [hpre]))
  have hlen1 : st1.ids.length = 4 := by rw [hids]; exact hlen
  constructor
  · intro hunk
    have hp := (place_none_iff ((env (st.iter + 1)).rx i).cid ((env (st.iter + 1)).rx i).t st1
      hlen1).mpr (by rw [hids]; exact hunk)
    have h4 : NCLIENTS = i + (3 - i + 1) := by unfold NCLIENTS; omega
    have := collect_split (env (st.iter + 1)).rx i (3 - i + 1) 0 _ st1 ev hpre
    rw [← h4] at this
    rw [run_abort env fuel st st1 (ev ++ [Event.recvTemp i ((env (st.iter + 1)).rx i).cid
      ((env (st.iter + 1)).rx i).t]) hs]
    · simp
    · rw [this]
      simp [collectFrom, not_le.mpr hret, hn, hp]
  · intro hk
    cases hp : placeFrom ((env (st.iter + 1)).rx i).cid ((env (st.iter + 1)).rx i).t NCLIENTS 0 st1 with
    | none =>
      exact absurd hk (by rw [← hids]; exact (place_none_iff _ _ st1 hlen1).mp hp)
    | some st2 =>
      refine ⟨st2, rfl, ?_⟩
      rw [collect_split (env (st.iter + 1)).rx i 1 0 _ st1 ev hpre]
      simp [collectFrom, not_le.mpr hret, hn, hp]

theorem hello_line : rxOfLine "HELLO".toList "HELLO 1 10.0".toList = ⟨12, 2, 1, 10⟩ := by
  simp [rxOfLine, sscanf_d_lf, scanLit, scanInt, scanFloat, scanDec, skipSpace, isspace, isdigit, digitsVal]
  norm_num

/-- C7, as stated, fails: four peripherals that all say `HELLO 1 10.0` are
registered, the registry then holds id 1 four times, and the first round sends
its four CENTRAL messages. -/
theorem C7_duplicate_id_counterexample :
    register 0 [0, 0, 0, 0] [0, 0, 0, 0] sameIdHello =
        .ok ⟨0, [1, 1, 1, 1], [10, 10, 10, 10], [0, 0, 0, 0], false, 0⟩ ∧
      (round silentPeers ⟨0, [1, 1, 1, 1], [10, 10, 10, 10], [0, 0, 0, 0], false, 0⟩).1 =
        centrals 0 := by
  constructor
  · unfold sameIdHello
    rw [hello_line]
    simp [register, acceptFrom, NCLIENTS]
  · simp [round, broadcastFrom, collectFrom, NCLIENTS, silentPeers, centrals]

theorem register_ok (central : ℚ) (c0 c1 c2 c3 : ℚ) (lastJunk : List ℚ) (hello : Nat → Hello)
    (h : ∀ i, i < 4 → HelloOk (hello i)) :
    register central [c0, c1, c2, c3] lastJunk hello =
      .ok ⟨central, [(hello 0).rx.cid, (hello 1).rx.cid, (hello 2).rx.cid, (hello 3).rx.cid],
        [(hello 0).rx.t, (hello 1).rx.t, (hello 2).rx.t, (hello 3).rx.t], lastJunk, false, 0⟩ := by
  obtain ⟨a0, b0, d0⟩ := h 0 (by norm_num)
  obtain ⟨a1, b1, d1⟩ := h 1 (by norm_num)
  obtain ⟨a2, b2, d2⟩ := h 2 (by norm_num)
  obtain ⟨a3, b3, d3⟩ := h 3 (by norm_num)
  simp [register, acceptFrom, NCLIENTS, a0, a1, a2, a3, not_le.mpr b0, not_le.mpr b1,
    not_le.mpr b2, not_le.mpr b3, d0, d1, d2, d3]

theorem accept_error (hello : Nat → Hello) (n k i : Nat) (ids : List Int) (curr : List ℚ)
    (hk : k ≤ i) (hi : i < k + n) (hbad : ¬ HelloOk (hello i)) :
    acceptFrom hello n k ids curr = .error 1 := by
  induction n generalizing k ids curr with
  | zero => omega
  | succ n ih =>
    rw [acceptFrom]
    by_cases h1 : (hello k).acceptOk = false
    · rw [if_pos h1]
    · rw [if_neg h1]
      by_cases h2 : (hello k).rx.ret ≤ 0
      · rw [if_pos h2]
      · rw [if_neg h2]
        by_cases h3 : (hello k).rx.n ≠ 2
        · rw [if_pos h3]
        · rw [if_neg h3]
          have hne : k ≠ i := by
            rintro rfl
            apply hbad
            refine ⟨by simpa using h1, not_le.mp h2, not_not.mp h3⟩
          exact ih (k + 1) _ _ (by omega) (by omega)

theorem register_error (central : ℚ) (currJunk lastJunk : List ℚ) (hello : Nat → Hello) (i : Nat)
    (hi : i < 4) (hbad : ¬ HelloOk (hello i)) :
    register central currJunk lastJunk hello = .error 1 := by
  unfold register
  rw [accept_error hello NCLIENTS 0 i _ _ (Nat.zero_le _) (by unfold NCLIENTS; omega) hbad]

/-- C7, amended.  Ids are not compared at registration.  If each of the four
connections is accepted and delivers a well-formed HELLO, registration
succeeds whatever the ids are, ids and values are stored in the order of the
connections, and the first round broadcasts CENTRAL; otherwise the program
returns 1. -/
theorem C7_registration_accepts_any_ids (central : ℚ) (c0 c1 c2 c3 : ℚ) (lastJunk : List ℚ)
    (hello : Nat → Hello) :
    ((∀ i, i < 4 → HelloOk (hello i)) →
      register central [c0, c1, c2, c3] lastJunk hello =
          .ok ⟨central, [(hello 0).rx.cid, (hello 1).rx.cid, (hello 2).rx.cid, (hello 3).rx.cid],
            [(hello 0).rx.t, (hello 1).rx.t, (hello 2).rx.t, (hello 3).rx.t], lastJunk, false, 0⟩ ∧
        ∀ inp : RoundIn, (∀ i, i < 4 → inp.sendOk i = true) →
          centrals central <+:
            (round inp ⟨central,
              [(hello 0).rx.cid, (hello 1).rx.cid, (hello 2).rx.cid, (hello 3).rx.cid],
              [(hello 0).rx.t, (hello 1).rx.t, (hello 2).rx.t, (hello 3).rx.t], lastJunk, false,
              0⟩).1) ∧
    ((¬ ∀ i, i < 4 → HelloOk (hello i)) →
      register central [c0, c1, c2, c3] lastJunk hello = .error 1) := by
  constructor
  · intro h
    exact ⟨register_ok central c0 c1 c2 c3 lastJunk hello h,
      fun inp hs => round_sends_central inp ⟨central,
        [(hello 0).rx.cid, (hello 1).rx.cid, (hello 2).rx.cid, (hello 3).rx.cid],
        [(hello 0).rx.t, (hello 1).rx.t, (hello 2).rx.t, (hello 3).rx.t], lastJunk, false, 0⟩ hs⟩
  · intro h
    push_neg at h
    obtain ⟨i, hi, hbad⟩ := h
    exact register_error central _ lastJunk hello i hi hbad

theorem steadyEnv_own (t : ℚ) (k : Nat) : OwnIds [1, 2, 3, 4] (steadyEnv t k).rx := by
  refine ⟨rfl, by decide, ?_⟩
  intro i hi
  interval_cases i <;> simp [steadyEnv]

/-- The update rule of C2 in the first round of that transport. -/
theorem C2_update_rule_witness :
    (∃ s, round (steadyEnv 5 1) steadyInit =
          (centrals steadyInit.central ++ recvs (steadyEnv 5 1).rx, RoundRes.next s) ∧
        s.central = (2 * steadyInit.central + ((steadyEnv 5 1).rx 0).t + ((steadyEnv 5 1).rx 1).t +
          ((steadyEnv 5 1).rx 2).t + ((steadyEnv 5 1).rx 3).t) / 6 ∧
        ∀ inp1 : RoundIn, (∀ i, i < 4 → inp1.sendOk i = true) →
          centrals ((2 * steadyInit.central + ((steadyEnv 5 1).rx 0).t + ((steadyEnv 5 1).rx 1).t +
            ((steadyEnv 5 1).rx 2).t + ((steadyEnv 5 1).rx 3).t) / 6) <+: (round inp1 s).1) ∨
    (∃ s, round (steadyEnv 5 1) steadyInit =
        (centrals steadyInit.central ++ recvs (steadyEnv 5 1).rx ++
            dones ((2 * steadyInit.central + ((steadyEnv 5 1).rx 0).t + ((steadyEnv 5 1).rx 1).t +
              ((steadyEnv 5 1).rx 2).t + ((steadyEnv 5 1).rx 3).t) / 6),
          RoundRes.stabilized s
            ((2 * steadyInit.central + ((steadyEnv 5 1).rx 0).t + ((steadyEnv 5 1).rx 1).t +
              ((steadyEnv 5 1).rx 2).t + ((steadyEnv 5 1).rx 3).t) / 6))) :=
  C2_update_rule (steadyEnv 5 1) steadyInit (steadyEnv_own 5 1) (fun _ _ => rfl) (fun _ _ => rfl)
    rfl rfl

theorem trailing_rx0 : trailingIn.rx 0 = ⟨15, 2, 1, 5 / 2⟩ := by
  simp [trailingIn, trailingLines, rxOfLine, sscanf_d_lf, scanLit, scanInt, scanFloat, scanDec, skipSpace,
    isspace, isdigit, digitsVal]
  norm_num

theorem trailing_rx1 : trailingIn.rx 1 = ⟨10, 2, 2, 5 / 2⟩ := by
  simp [trailingIn, trailingLines, rxOfLine, sscanf_d_lf, scanLit, scanInt, scanFloat, scanDec, skipSpace,
    isspace, isdigit, digitsVal]
  norm_num

theorem trailing_rx2 : trailingIn.rx 2 = ⟨10, 2, 3, 5 / 2⟩ := by
  simp [trailingIn, trailingLines, rxOfLine, sscanf_d_lf, scanLit, scanInt, scanFloat, scanDec, skipSpace,
    isspace, isdigit, digitsVal]
  norm_num

theorem trailing_rx3 : trailingIn.rx 3 = ⟨10, 2, 4, 5 / 2⟩ := by
  simp [trailingIn, trailingLines, rxOfLine, sscanf_d_lf, scanLit, scanInt, scanFloat, scanDec, skipSpace,
    isspace, isdigit, digitsVal]
  norm_num

theorem trailing_send (i : Nat) : trailingIn.sendOk i = true := rfl

theorem central_trailing :
    rxcOfLine "CENTRAL 4.0 junk".toList = ⟨16, 0, 0, 1, 4⟩ := by
  simp [rxcOfLine, sscanf_lf, scanLit, scanFloat, scanDec, skipSpace, isspace, isdigit, digitsVal]
  norm_num

/-- C8, as stated, fails for text after the last field: the coordinator takes
`2.5` from the line `TEMP 1 2.5 junk` and finishes the round, and the
peripheral answers the line `CENTRAL 4.0 junk` with a TEMP. -/
theorem C8_trailing_text_counterexample :
    (round trailingIn steadyInit).2 =
        RoundRes.next ⟨(2 * 0 + 5 / 2 + 5 / 2 + 5 / 2 + 5 / 2) / 6, [1, 2, 3, 4],
          [5 / 2, 5 / 2, 5 / 2, 5 / 2], [0, 0, 0, 0], true, 1⟩ ∧
      clientStep true (rxcOfLine "CENTRAL 4.0 junk".toList) ⟨3, 6⟩ =
        ([CEvent.sendTemp 3 ((3 * 6 + 2 * 4) / 5)], ClientRes.again ⟨3, (3 * 6 + 2 * 4) / 5⟩) := by
  constructor
  · simp [round, broadcastFrom, collectFrom, placeFrom, converged, new_central, sumFrom, NCLIENTS,
      steadyInit, trailing_rx0, trailing_rx1, trailing_rx2, trailing_rx3, trailing_send]
  · rw [central_trailing]
    simp [clientStep]

/-- The two cases of C6 at the first line of a round: id 9 is unknown, id 1 is
registered. -/
theorem C6_unknown_id_witness :
    run strangerEnv (0 + 1) steadyInit =
        (centrals steadyInit.central ++ [] ++
            [Event.recvTemp 0 ((strangerEnv (steadyInit.iter + 1)).rx 0).cid
              ((strangerEnv (steadyInit.iter + 1)).rx 0).t],
          RunRes.exit 1 { steadyInit with iter := steadyInit.iter + 1 }) ∧
      ∃ st2, placeFrom ((steadyEnv 5 (steadyInit.iter + 1)).rx 0).cid
            ((steadyEnv 5 (steadyInit.iter + 1)).rx 0).t NCLIENTS 0
            { steadyInit with iter := steadyInit.iter + 1 } = some st2 ∧
        collectFrom (steadyEnv 5 (steadyInit.iter + 1)).rx (0 + 1) 0
            { steadyInit with iter := steadyInit.iter + 1 } =
          ([] ++ [Event.recvTemp 0 ((steadyEnv 5 (steadyInit.iter + 1)).rx 0).cid
              ((steadyEnv 5 (steadyInit.iter + 1)).rx 0).t], Collected.ok st2) :=
  ⟨(C6_unknown_id strangerEnv 0 steadyInit _ [] 0 rfl (fun _ _ => rfl) (by decide) rfl
      (by decide) rfl).1 (by decide),
    (C6_unknown_id (steadyEnv 5) 0 steadyInit _ [] 0 rfl (fun _ _ => rfl) (by decide) rfl
      (by decide) rfl).2 (by decide)⟩

theorem sameIdHello_ok (i : Nat) : HelloOk (sameIdHello i) := by
  unfold HelloOk sameIdHello
  rw [hello_line]
  decide

/-- The two cases of amended C7: four times id 1, and no connection at all. -/
theorem C7_registration_accepts_any_ids_witness :
    (register 0 [0, 0, 0, 0] [0, 0, 0, 0] sameIdHello =
          .ok ⟨0, [(sameIdHello 0).rx.cid, (sameIdHello 1).rx.cid, (sameIdHello 2).rx.cid,
              (sameIdHello 3).rx.cid],
            [(sameIdHello 0).rx.t, (sameIdHello 1).rx.t, (sameIdHello 2).rx.t,
              (sameIdHello 3).rx.t], [0, 0, 0, 0], false, 0⟩ ∧
        ∀ inp : RoundIn, (∀ i, i < 4 → inp.sendOk i = true) →
          centrals 0 <+:
            (round inp ⟨0,
              [(sameIdHello 0).rx.cid, (sameIdHello 1).rx.cid, (sameIdHello 2).rx.cid,
                (sameIdHello 3).rx.cid],
              [(sameIdHello 0).rx.t, (sameIdHello 1).rx.t, (sameIdHello 2).rx.t,
                (sameIdHello 3).rx.t], [0, 0, 0, 0], false, 0⟩).1) ∧
      register 0 [0, 0, 0, 0] [0, 0, 0, 0] noHello = .error 1 :=
  ⟨(C7_registration_accepts_any_ids 0 0 0 0 0 [0, 0, 0, 0] sameIdHello).1
      (fun i _ => sameIdHello_ok i),
    (C7_registration_accepts_any_ids 0 0 0 0 0 [0, 0, 0, 0] noHello).2
      (fun h => by simpa [HelloOk, noHello] using h 0 (by decide))⟩

theorem sysIn_rx (c : ℚ) (i0 i1 i2 i3 : Int) (e0 e1 e2 e3 : ℚ) (las : List ℚ) (hl : Bool)
    (it : Nat) :
    (sysIn (mkSys c i0 i1 i2 i3 e0 e1 e2 e3 las hl it)).rx 0 = ⟨1, 2, i0, new_ext e0 c⟩ ∧
    (sysIn (mkSys c i0 i1 i2 i3 e0 e1 e2 e3 las hl it)).rx 1 = ⟨1, 2, i1, new_ext e1 c⟩ ∧
    (sysIn (mkSys c i0 i1 i2 i3 e0 e1 e2 e3 las hl it)).rx 2 = ⟨1, 2, i2, new_ext e2 c⟩ ∧
    (sysIn (mkSys c i0 i1 i2 i3 e0 e1 e2 e3 las hl it)).rx 3 = ⟨1, 2, i3, new_ext e3 c⟩ := by
  simp [sysIn, mkSys, clientStep, wireCentral, wireTemp, new_ext]

theorem sysIn_own (c : ℚ) (i0 i1 i2 i3 : Int) (e0 e1 e2 e3 : ℚ) (las : List ℚ) (hl : Bool)
    (it : Nat) (hnd : [i0, i1, i2, i3].Nodup) :
    OwnIds (mkSys c i0 i1 i2 i3 e0 e1 e2 e3 las hl it).server.ids
      (sysIn (mkSys c i0 i1 i2 i3 e0 e1 e2 e3 las hl it)).rx := by
  obtain ⟨h0, h1, h2, h3⟩ := sysIn_rx c i0 i1 i2 i3 e0 e1 e2 e3 las hl it
  refine ⟨rfl, hnd, ?_⟩
  intro i hi
  interval_cases i
  · rw [h0]; simp [mkSys]
  · rw [h1]; simp [mkSys]
  · rw [h2]; simp [mkSys]
  · rw [h3]; simp [mkSys]

theorem sysClients_mk (c : ℚ) (i0 i1 i2 i3 : Int) (e0 e1 e2 e3 : ℚ) (las : List ℚ) (hl : Bool)
    (it : Nat) :
    sysClients (mkSys c i0 i1 i2 i3 e0 e1 e2 e3 las hl it) =
      [⟨i0, new_ext e0 c⟩, ⟨i1, new_ext e1 c⟩, ⟨i2, new_ext e2 c⟩, ⟨i3, new_ext e3 c⟩] := by
  simp [sysClients, mkSys, clientStep, wireCentral, ClientRes.state, new_ext]

theorem collectedOf_mk (c : ℚ) (i0 i1 i2 i3 : Int) (e0 e1 e2 e3 : ℚ) (las : List ℚ) (hl : Bool)
    (it : Nat) :
    collectedOf (sysIn (mkSys c i0 i1 i2 i3 e0 e1 e2 e3 las hl it))
        (mkSys c i0 i1 i2 i3 e0 e1 e2 e3 las hl it).server =
      ⟨c, [i0, i1, i2, i3], [new_ext e0 c, new_ext e1 c, new_ext e2 c, new_ext e3 c],
        if hl then [e0, e1, e2, e3] else las, hl, it + 1⟩ := by
  obtain ⟨h0, h1, h2, h3⟩ := sysIn_rx c i0 i1 i2 i3 e0 e1 e2 e3 las hl it
  simp only [collectedOf, collected, vals, h0, h1, h2, h3]
  rfl

theorem stableAt_mk (c : ℚ) (i0 i1 i2 i3 : Int) (e0 e1 e2 e3 : ℚ) (las : List ℚ) (hl : Bool)
    (it : Nat) :
    stableAt (mkSys c i0 i1 i2 i3 e0 e1 e2 e3 las hl it) = true ↔
      hl = true ∧ |new_ext e0 c - e0| ≤ EPS ∧ |new_ext e1 c - e1| ≤ EPS ∧
        |new_ext e2 c - e2| ≤ EPS ∧ |new_ext e3 c - e3| ≤ EPS := by
  unfold stableAt
  rw [converged_iff, collectedOf_mk]
  constructor
  · rintro ⟨h, hall⟩
    simp only at h
    subst h
    have a0 := hall 0 (by norm_num)
    have a1 := hall 1 (by norm_num)
    have a2 := hall 2 (by norm_num)
    have a3 := hall 3 (by norm_num)
    simp at a0 a1 a2 a3
    exact ⟨rfl, a0, a1, a2, a3⟩
  · rintro ⟨rfl, a0, a1, a2, a3⟩
    refine ⟨rfl, ?_⟩
    intro i hi
    interval_cases i <;> simp <;> assumption

theorem round_mk (c : ℚ) (i0 i1 i2 i3 : Int) (e0 e1 e2 e3 : ℚ) (las : List ℚ) (hl : Bool)
    (it : Nat) (hnd : [i0, i1, i2, i3].Nodup) (hlas : las.length = 4) :
    (round (sysIn (mkSys c i0 i1 i2 i3 e0 e1 e2 e3 las hl it))
        (mkSys c i0 i1 i2 i3 e0 e1 e2 e3 las hl it).server).2 =
      if stableAt (mkSys c i0 i1 i2 i3 e0 e1 e2 e3 las hl it) then
        RoundRes.stabilized
          ⟨c, [i0, i1, i2, i3], [new_ext e0 c, new_ext e1 c, new_ext e2 c, new_ext e3 c],
            if hl then [e0, e1, e2, e3] else las, hl, it + 1⟩ (central_of c e0 e1 e2 e3)
      else
        RoundRes.next
          ⟨central_of c e0 e1 e2 e3, [i0, i1, i2, i3],
            [new_ext e0 c, new_ext e1 c, new_ext e2 c, new_ext e3 c],
            if hl then [e0, e1, e2, e3] else las, true, it + 1⟩ := by
  rw [round_own _ _ (sysIn_own c i0 i1 i2 i3 e0 e1 e2 e3 las hl it hnd) (fun _ _ => rfl) rfl hlas]
  have hnc : new_central (collectedOf (sysIn (mkSys c i0 i1 i2 i3 e0 e1 e2 e3 las hl it))
      (mkSys c i0 i1 i2 i3 e0 e1 e2 e3 las hl it).server) = central_of c e0 e1 e2 e3 := by
    rw [collectedOf_mk, new_central_eq]
    rfl
  unfold stableAt
  by_cases hcv : converged (collectedOf (sysIn (mkSys c i0 i1 i2 i3 e0 e1 e2 e3 las hl it))
      (mkSys c i0 i1 i2 i3 e0 e1 e2 e3 las hl it).server) = true
  · rw [if_pos hcv, if_pos hcv, hnc, collectedOf_mk]
  · rw [if_neg hcv, if_neg hcv]
    rw [collectedOf_mk] at hnc
    simp only [advanced, collectedOf_mk, hnc]

theorem freeRound_mk (c : ℚ) (i0 i1 i2 i3 : Int) (e0 e1 e2 e3 : ℚ) (las : List ℚ) (hl : Bool)
    (it : Nat) (hnd : [i0, i1, i2, i3].Nodup) (hlas : las.length = 4) :
    freeRound (mkSys c i0 i1 i2 i3 e0 e1 e2 e3 las hl it) =
      mkSys (central_of c e0 e1 e2 e3) i0 i1 i2 i3 (new_ext e0 c) (new_ext e1 c) (new_ext e2 c)
        (new_ext e3 c) (if hl then [e0, e1, e2, e3] else las) true (it + 1) := by
  unfold freeRound
  rw [round_mk c i0 i1 i2 i3 e0 e1 e2 e3 las hl it hnd hlas, sysClients_mk]
  by_cases hs : stableAt (mkSys c i0 i1 i2 i3 e0 e1 e2 e3 las hl it) = true
  · rw [if_pos hs]; rfl
  · rw [if_neg hs]; rfl

theorem sysRun_mk (fuel : Nat) (c : ℚ) (i0 i1 i2 i3 : Int) (e0 e1 e2 e3 : ℚ) (las : List ℚ)
    (hl : Bool) (it : Nat) (hnd : [i0, i1, i2, i3].Nodup) (hlas : las.length = 4) :
    sysRun (fuel + 1) (mkSys c i0 i1 i2 i3 e0 e1 e2 e3 las hl it) =
      if stableAt (mkSys c i0 i1 i2 i3 e0 e1 e2 e3 las hl it) then
        SysRes.stabilized
          ⟨c, [i0, i1, i2, i3], [new_ext e0 c, new_ext e1 c, new_ext e2 c, new_ext e3 c],
            if hl then [e0, e1, e2, e3] else las, hl, it + 1⟩ (central_of c e0 e1 e2 e3)
          [⟨i0, new_ext e0 c⟩, ⟨i1, new_ext e1 c⟩, ⟨i2, new_ext e2 c⟩, ⟨i3, new_ext e3 c⟩]
      else
        sysRun fuel (mkSys (central_of c e0 e1 e2 e3) i0 i1 i2 i3 (new_ext e0 c) (new_ext e1 c)
          (new_ext e2 c) (new_ext e3 c) (if hl then [e0, e1, e2, e3] else las) true (it + 1)) := by
  rw [sysRun, round_mk c i0 i1 i2 i3 e0 e1 e2 e3 las hl it hnd hlas, sysClients_mk]
  by_cases hs : stableAt (mkSys c i0 i1 i2 i3 e0 e1 e2 e3 las hl it) = true
  · rw [if_pos hs, if_pos hs]
    simp [clientStep, wireDone, ClientRes.state]
  · rw [if_neg hs, if_neg hs]; rfl

/-- C9. Equilibrium.  If the central value, the four peripheral values and the
four values collected in the previous round all equal `C`, the next round
stabilises: the central value sent with DONE is `C`, every peripheral still
holds `C`, and the four differences compared with `EPS` are 0. -/
theorem C9_equilibrium (C : ℚ) (i0 i1 i2 i3 : Int) (las : List ℚ) (it fuel : Nat)
    (hnd : [i0, i1, i2, i3].Nodup) (hlas : las.length = 4) :
    sysRun (fuel + 1) (mkSys C i0 i1 i2 i3 C C C C las true it) =
        SysRes.stabilized ⟨C, [i0, i1, i2, i3], [C, C, C, C], [C, C, C, C], true, it + 1⟩ C
          [⟨i0, C⟩, ⟨i1, C⟩, ⟨i2, C⟩, ⟨i3, C⟩] ∧
      deltas ⟨C, [i0, i1, i2, i3], [C, C, C, C], [C, C, C, C], true, it + 1⟩ = [0, 0, 0, 0] := by
  have hne : new_ext C C = C := by unfold new_ext; ring
  have hce : central_of C C C C C = C := by unfold central_of; rw [hne]; ring
  have hst : stableAt (mkSys C i0 i1 i2 i3 C C C C las true it) = true := by
    rw [stableAt_mk, hne]
    simp [EPS]
  constructor
  · rw [sysRun_mk fuel C i0 i1 i2 i3 C C C C las true it hnd hlas, if_pos hst, hne, hce]
    rfl
  · simp [deltas, NCLIENTS, List.range_succ]

/-- The statement of C9 at `C = 5`. -/
theorem C9_equilibrium_witness :
    sysRun (0 + 1) (mkSys 5 1 2 3 4 5 5 5 5 [6, 6, 6, 6] true 3) =
        SysRes.stabilized ⟨5, [1, 2, 3, 4], [5, 5, 5, 5], [5, 5, 5, 5], true, 3 + 1⟩ 5
          [⟨1, 5⟩, ⟨2, 5⟩, ⟨3, 5⟩, ⟨4, 5⟩] ∧
      deltas ⟨5, [1, 2, 3, 4], [5, 5, 5, 5], [5, 5, 5, 5], true, 3 + 1⟩ = [0, 0, 0, 0] :=
  C9_equilibrium 5 1 2 3 4 [6, 6, 6, 6] 3 0 (by decide) rfl

theorem seed_step (fuel : Nat) (c e : ℚ) (las : List ℚ) (hl : Bool) (it : Nat)
    (hlas : las.length = 4) (h : ¬ (hl = true ∧ |new_ext e c - e| ≤ EPS)) :
    sysRun (fuel + 1) (mkSys c 1 2 3 4 e e e e las hl it) =
      sysRun fuel (mkSys (central_of c e e e e) 1 2 3 4 (new_ext e c) (new_ext e c) (new_ext e c)
        (new_ext e c) (if hl then [e, e, e, e] else las) true (it + 1)) := by
  rw [sysRun_mk fuel c 1 2 3 4 e e e e las hl it (by decide) hlas, if_neg]
  rw [stableAt_mk]
  tauto

theorem seed_eq : seed = mkSys 0 1 2 3 4 10 10 10 10 [0, 0, 0, 0] false 0 := rfl

theorem seed_r1 (fuel : Nat) :
    sysRun (fuel + 1) (mkSys 0 1 2 3 4 10 10 10 10 [0, 0, 0, 0] false 0) =
      sysRun fuel (mkSys 4 1 2 3 4 6 6 6 6 [0, 0, 0, 0] true 1) := by
  rw [seed_step fuel 0 10 [0, 0, 0, 0] false 0 rfl (by simp)]
  norm_num [central_of, new_ext]

theorem seed_r2 (fuel : Nat) :
    sysRun (fuel + 1) (mkSys 4 1 2 3 4 6 6 6 6 [0, 0, 0, 0] true 1) =
      sysRun fuel (mkSys (24 / 5) 1 2 3 4 (26 / 5) (26 / 5) (26 / 5) (26 / 5) [6, 6, 6, 6] true 2) := by
  rw [seed_step fuel 4 6 [0, 0, 0, 0] true 1 rfl (by norm_num [new_ext, EPS, abs_le])]
  norm_num [central_of, new_ext]

theorem seed_r3 (fuel : Nat) :
    sysRun (fuel + 1)
        (mkSys (24 / 5) 1 2 3 4 (26 / 5) (26 / 5) (26 / 5) (26 / 5) [6, 6, 6, 6] true 2) =
      sysRun fuel (mkSys (124 / 25) 1 2 3 4 (126 / 25) (126 / 25) (126 / 25) (126 / 25)
        [26 / 5, 26 / 5, 26 / 5, 26 / 5] true 3) := by
  rw [seed_step fuel (24 / 5) (26 / 5) [6, 6, 6, 6] true 2 rfl (by norm_num [new_ext, EPS, abs_le])]
  norm_num [central_of, new_ext]

theorem seed_r4 (fuel : Nat) :
    sysRun (fuel + 1) (mkSys (124 / 25) 1 2 3 4 (126 / 25) (126 / 25) (126 / 25) (126 / 25)
        [26 / 5, 26 / 5, 26 / 5, 26 / 5] true 3) =
      sysRun fuel (mkSys (624 / 125) 1 2 3 4 (626 / 125) (626 / 125) (626 / 125) (626 / 125)
        [126 / 25, 126 / 25, 126 / 25, 126 / 25] true 4) := by
  rw [seed_step fuel (124 / 25) (126 / 25) [26 / 5, 26 / 5, 26 / 5, 26 / 5] true 3 rfl
    (by norm_num [new_ext, EPS, abs_le])]
  norm_num [central_of, new_ext]

theorem seed_r5 (fuel : Nat) :
    sysRun (fuel + 1) (mkSys (624 / 125) 1 2 3 4 (626 / 125) (626 / 125) (626 / 125) (626 / 125)
        [126 / 25, 126 / 25, 126 / 25, 126 / 25] true 4) =
      sysRun fuel (mkSys (3124 / 625) 1 2 3 4 (3126 / 625) (3126 / 625) (3126 / 625) (3126 / 625)
        [626 / 125, 626 / 125, 626 / 125, 626 / 125] true 5) := by
  rw [seed_step fuel (624 / 125) (626 / 125) [126 / 25, 126 / 25, 126 / 25, 126 / 25] true 4 rfl
    (by norm_num [new_ext, EPS, abs_le])]
  norm_num [central_of, new_ext]

theorem seed_r6 (fuel : Nat) :
    sysRun (fuel + 1) (mkSys (3124 / 625) 1 2 3 4 (3126 / 625) (3126 / 625) (3126 / 625)
        (3126 / 625) [626 / 125, 626 / 125, 626 / 125, 626 / 125] true 5) =
      sysRun fuel (mkSys (15624 / 3125) 1 2 3 4 (15626 / 3125) (15626 / 3125) (15626 / 3125)
        (15626 / 3125) [3126 / 625, 3126 / 625, 3126 / 625, 3126 / 625] true 6) := by
  rw [seed_step fuel (3124 / 625) (3126 / 625) [626 / 125, 626 / 125, 626 / 125, 626 / 125] true 5
    rfl (by norm_num [new_ext, EPS, abs_le])]
  norm_num [central_of, new_ext]

theorem seed_r7 (fuel : Nat) :
    sysRun (fuel + 1) (mkSys (15624 / 3125) 1 2 3 4 (15626 / 3125) (15626 / 3125) (15626 / 3125)
        (15626 / 3125) [3126 / 625, 3126 / 625, 3126 / 625, 3126 / 625] true 6) =
      SysRes.stabilized
        ⟨15624 / 3125, [1, 2, 3, 4], [78126 / 15625, 78126 / 15625, 78126 / 15625, 78126 / 15625],
          [15626 / 3125, 15626 / 3125, 15626 / 3125, 15626 / 3125], true, 7⟩ (78124 / 15625)
        [⟨1, 78126 / 15625⟩, ⟨2, 78126 / 15625⟩, ⟨3, 78126 / 15625⟩, ⟨4, 78126 / 15625⟩] := by
  rw [sysRun_mk fuel (15624 / 3125) 1 2 3 4 (15626 / 3125) (15626 / 3125) (15626 / 3125)
    (15626 / 3125) [3126 / 625, 3126 / 625, 3126 / 625, 3126 / 625] true 6 (by decide) rfl, if_pos]
  · norm_num [central_of, new_ext]
  · rw [stableAt_mk]
    norm_num [new_ext, EPS, abs_le]

/-- C10. Seed scenario: central 0, peripherals 1 to 4 at 10.  Rounds 1 to 6 end
without stabilisation, with peripheral value and central value 6 and 4, then
26/5 and 24/5, then 126/25 and 124/25, and so on; the difference between
consecutive reports is 4/5 in round 2, 4/25 in round 3, and a fifth of the
previous one in rounds 4 to 7.  Round 7 stabilises, and the final central value
and peripheral values are within `EPS` of 5. -/
theorem C10_seed_scenario :
    sysRun 1 seed = .outOfFuel (mkSys 4 1 2 3 4 6 6 6 6 [0, 0, 0, 0] true 1) ∧
    sysRun 2 seed = .outOfFuel
      (mkSys (24 / 5) 1 2 3 4 (26 / 5) (26 / 5) (26 / 5) (26 / 5) [6, 6, 6, 6] true 2) ∧
    sysRun 3 seed = .outOfFuel (mkSys (124 / 25) 1 2 3 4 (126 / 25) (126 / 25) (126 / 25)
      (126 / 25) [26 / 5, 26 / 5, 26 / 5, 26 / 5] true 3) ∧
    deltas (sysRun 2 seed).server = [4 / 5, 4 / 5, 4 / 5, 4 / 5] ∧
    deltas (sysRun 3 seed).server = [4 / 25, 4 / 25, 4 / 25, 4 / 25] ∧
    deltas (sysRun 4 seed).server = (deltas (sysRun 3 seed).server).map (· / 5) ∧
    deltas (sysRun 5 seed).server = (deltas (sysRun 4 seed).server).map (· / 5) ∧
    deltas (sysRun 6 seed).server = (deltas (sysRun 5 seed).server).map (· / 5) ∧
    deltas (sysRun 7 seed).server = (deltas (sysRun 6 seed).server).map (· / 5) ∧
    sysRun 4 seed = .outOfFuel (mkSys (624 / 125) 1 2 3 4 (626 / 125) (626 / 125)
      (626 / 125) (626 / 125) [126 / 25, 126 / 25, 126 / 25, 126 / 25] true 4) ∧
    sysRun 5 seed = .outOfFuel (mkSys (3124 / 625) 1 2 3 4 (3126 / 625) (3126 / 625)
      (3126 / 625) (3126 / 625) [626 / 125, 626 / 125, 626 / 125, 626 / 125] true 5) ∧
    sysRun 6 seed = .outOfFuel (mkSys (15624 / 3125) 1 2 3 4 (15626 / 3125)
      (15626 / 3125) (15626 / 3125) (15626 / 3125)
      [3126 / 625, 3126 / 625, 3126 / 625, 3126 / 625] true 6) ∧
    (∀ k, sysRun (k + 7) seed =
        SysRes.stabilized
          ⟨15624 / 3125, [1, 2, 3, 4],
            [78126 / 15625, 78126 / 15625, 78126 / 15625, 78126 / 15625],
            [15626 / 3125, 15626 / 3125, 15626 / 3125, 15626 / 3125], true, 7⟩ (78124 / 15625)
          [⟨1, 78126 / 15625⟩, ⟨2, 78126 / 15625⟩, ⟨3, 78126 / 15625⟩, ⟨4, 78126 / 15625⟩]) ∧
    |(78124 / 15625 : ℚ) - 5| < EPS ∧ |(78126 / 15625 : ℚ) - 5| < EPS := by
  have e1 : sysRun 1 seed = .outOfFuel (mkSys 4 1 2 3 4 6 6 6 6 [0, 0, 0, 0] true 1) := by
    rw [seed_eq, seed_r1]; rfl
  have e2 : sysRun 2 seed = .outOfFuel
      (mkSys (24 / 5) 1 2 3 4 (26 / 5) (26 / 5) (26 / 5) (26 / 5) [6, 6, 6, 6] true 2) := by
    rw [seed_eq, seed_r1, seed_r2]; rfl
  have e3 : sysRun 3 seed = .outOfFuel (mkSys (124 / 25) 1 2 3 4 (126 / 25) (126 / 25)
      (126 / 25) (126 / 25) [26 / 5, 26 / 5, 26 / 5, 26 / 5] true 3) := by
    rw [seed_eq, seed_r1, seed_r2, seed_r3]; rfl
  have e4 : sysRun 4 seed = .outOfFuel (mkSys (624 / 125) 1 2 3 4 (626 / 125) (626 / 125)
      (626 / 125) (626 / 125) [126 / 25, 126 / 25, 126 / 25, 126 / 25] true 4) := by
    rw [seed_eq, seed_r1, seed_r2, seed_r3, seed_r4]; rfl
  have e5 : sysRun 5 seed = .outOfFuel (mkSys (3124 / 625) 1 2 3 4 (3126 / 625) (3126 / 625)
      (3126 / 625) (3126 / 625) [626 / 125, 626 / 125, 626 / 125, 626 / 125] true 5) := by
    rw [seed_eq, seed_r1, seed_r2, seed_r3, seed_r4, seed_r5]; rfl
  have e6 : sysRun 6 seed = .outOfFuel (mkSys (15624 / 3125) 1 2 3 4 (15626 / 3125)
      (15626 / 3125) (15626 / 3125) (15626 / 3125)
      [3126 / 625, 3126 / 625, 3126 / 625, 3126 / 625] true 6) := by
    rw [seed_eq, seed_r1, seed_r2, seed_r3, seed_r4, seed_r5, seed_r6]; rfl
  have e7 : ∀ fuel, sysRun (fuel + 7) seed =
      SysRes.stabilized
        ⟨15624 / 3125, [1, 2, 3, 4], [78126 / 15625, 78126 / 15625, 78126 / 15625, 78126 / 15625],
          [15626 / 3125, 15626 / 3125, 15626 / 3125, 15626 / 3125], true, 7⟩ (78124 / 15625)
        [⟨1, 78126 / 15625⟩, ⟨2, 78126 / 15625⟩, ⟨3, 78126 / 15625⟩, ⟨4, 78126 / 15625⟩] :=
    fun fuel => by
      rw [seed_eq, seed_r1, seed_r2, seed_r3, seed_r4, seed_r5, seed_r6, seed_r7]
  refine ⟨e1, e2, e3, ?_, ?_, ?_, ?_, ?_, ?_, e4, e5, e6, e7, ?_, ?_⟩
  · rw [e2]; norm_num [deltas, SysRes.server, mkSys, NCLIENTS, List.range_succ, abs_of_neg]
  · rw [e3]; norm_num [deltas, SysRes.server, mkSys, NCLIENTS, List.range_succ, abs_of_neg]
  · rw [e4, e3]; norm_num [deltas, SysRes.server, mkSys, NCLIENTS, List.range_succ, abs_of_neg]
  · rw [e5, e4]; norm_num [deltas, SysRes.server, mkSys, NCLIENTS, List.range_succ, abs_of_neg]
  · rw [e6, e5]; norm_num [deltas, SysRes.server, mkSys, NCLIENTS, List.range_succ, abs_of_neg]
  · rw [e7 0, e6]; norm_num [deltas, SysRes.server, mkSys, NCLIENTS, List.range_succ, abs_of_neg]
  · norm_num [EPS, abs_lt]
  · norm_num [EPS, abs_lt]

theorem freeAfter_form (i0 i1 i2 i3 : Int) (hnd : [i0, i1, i2, i3].Nodup) (n : Nat) :
    ∀ (c e0 e1 e2 e3 : ℚ) (las : List ℚ) (hl : Bool) (it : Nat), las.length = 4 →
      ∃ (c1 f0 f1 f2 f3 : ℚ) (las1 : List ℚ) (hl1 : Bool),
        freeAfter n (mkSys c i0 i1 i2 i3 e0 e1 e2 e3 las hl it) =
            mkSys c1 i0 i1 i2 i3 f0 f1 f2 f3 las1 hl1 (it + n) ∧
          las1.length = 4 ∧ (1 ≤ n → hl1 = true) ∧ (n = 0 → hl1 = hl) ∧
          f0 - c1 = (3 / 5) ^ n * (e0 - c - spread c e0 e1 e2 e3 / 4) +
              (1 / 5) ^ n * (spread c e0 e1 e2 e3 / 4) ∧
          f1 - c1 = (3 / 5) ^ n * (e1 - c - spread c e0 e1 e2 e3 / 4) +
              (1 / 5) ^ n * (spread c e0 e1 e2 e3 / 4) ∧
          f2 - c1 = (3 / 5) ^ n * (e2 - c - spread c e0 e1 e2 e3 / 4) +
              (1 / 5) ^ n * (spread c e0 e1 e2 e3 / 4) ∧
          f3 - c1 = (3 / 5) ^ n * (e3 - c - spread c e0 e1 e2 e3 / 4) +
              (1 / 5) ^ n * (spread c e0 e1 e2 e3 / 4) := by
  induction n with
  | zero =>
    intro c e0 e1 e2 e3 las hl it hlas
    exact ⟨c, e0, e1, e2, e3, las, hl, rfl, hlas, by omega, fun _ => rfl, by ring, by ring,
      by ring, by ring⟩
  | succ n ih =>
    intro c e0 e1 e2 e3 las hl it hlas
    have hlas1 : (if hl = true then [e0, e1, e2, e3] else las).length = 4 := by
      cases hl <;> simp [hlas]
    obtain ⟨c1, f0, f1, f2, f3, las1, hl1, hf, hlen, hhl, hz, h0, h1, h2, h3⟩ :=
      ih (central_of c e0 e1 e2 e3) (new_ext e0 c) (new_ext e1 c) (new_ext e2 c) (new_ext e3 c)
        (if hl then [e0, e1, e2, e3] else las) true (it + 1) hlas1
    refine ⟨c1, f0, f1, f2, f3, las1, hl1, ?_, hlen, ?_, by omega, ?_, ?_, ?_, ?_⟩
    · rw [freeAfter, freeRound_mk c i0 i1 i2 i3 e0 e1 e2 e3 las hl it hnd hlas, hf]
      rw [show it + 1 + n = it + (n + 1) by omega]
    · intro _
      cases n with
      | zero => exact hz rfl
      | succ m => exact hhl (by omega)
    · rw [h0]; simp only [spread, central_of, new_ext]; ring
    · rw [h1]; simp only [spread, central_of, new_ext]; ring
    · rw [h2]; simp only [spread, central_of, new_ext]; ring
    · rw [h3]; simp only [spread, central_of, new_ext]; ring

theorem geo_bound (n : Nat) (u s d : ℚ) (h : d = (3 / 5) ^ n * u + (1 / 5) ^ n * s) :
    |d| ≤ (|u| + |s|) * (3 / 5) ^ n := by
  have h3 : (0 : ℚ) ≤ (3 / 5) ^ n := by positivity
  have h1 : (0 : ℚ) ≤ (1 / 5) ^ n := by positivity
  have h13 : ((1 : ℚ) / 5) ^ n ≤ (3 / 5) ^ n := by
    apply pow_le_pow_left₀ (by norm_num) (by norm_num)
  rw [h]
  calc |(3 / 5 : ℚ) ^ n * u + (1 / 5) ^ n * s|
      ≤ |(3 / 5 : ℚ) ^ n * u| + |(1 / 5 : ℚ) ^ n * s| := abs_add _ _
    _ = (3 / 5) ^ n * |u| + (1 / 5) ^ n * |s| := by
        rw [abs_mul, abs_mul, abs_of_nonneg h3, abs_of_nonneg h1]
    _ ≤ (3 / 5) ^ n * |u| + (3 / 5) ^ n * |s| := by
        have := mul_le_mul_of_nonneg_right h13 (abs_nonneg s)
        linarith
    _ = (|u| + |s|) * (3 / 5) ^ n := by ring


theorem bound0_nonneg (c e0 e1 e2 e3 : ℚ) : 0 ≤ bound0 c e0 e1 e2 e3 := by
  unfold bound0
  positivity

theorem freeAfter_bound (i0 i1 i2 i3 : Int) (hnd : [i0, i1, i2, i3].Nodup) (n : Nat)
    (c e0 e1 e2 e3 : ℚ) (las : List ℚ) (hlas : las.length = 4) :
    ∃ (c1 f0 f1 f2 f3 : ℚ) (las1 : List ℚ) (hl1 : Bool),
      freeAfter n (mkSys c i0 i1 i2 i3 e0 e1 e2 e3 las false 0) =
          mkSys c1 i0 i1 i2 i3 f0 f1 f2 f3 las1 hl1 n ∧
        las1.length = 4 ∧ (1 ≤ n → hl1 = true) ∧ (n = 0 → hl1 = false) ∧
        |f0 - c1| ≤ bound0 c e0 e1 e2 e3 * (3 / 5) ^ n ∧
        |f1 - c1| ≤ bound0 c e0 e1 e2 e3 * (3 / 5) ^ n ∧
        |f2 - c1| ≤ bound0 c e0 e1 e2 e3 * (3 / 5) ^ n ∧
        |f3 - c1| ≤ bound0 c e0 e1 e2 e3 * (3 / 5) ^ n := by
  obtain ⟨c1, f0, f1, f2, f3, las1, hl1, hf, hlen, hhl, hz, h0, h1, h2, h3⟩ :=
    freeAfter_form i0 i1 i2 i3 hnd n c e0 e1 e2 e3 las false 0 hlas
  rw [Nat.zero_add] at hf
  have hp : (0 : ℚ) ≤ (3 / 5) ^ n := by positivity
  have key : ∀ u d : ℚ, d = (3 / 5) ^ n * u + (1 / 5) ^ n * (spread c e0 e1 e2 e3 / 4) →
      |u| + |spread c e0 e1 e2 e3 / 4| ≤ bound0 c e0 e1 e2 e3 →
      |d| ≤ bound0 c e0 e1 e2 e3 * (3 / 5) ^ n := by
    intro u d hd hle
    exact le_trans (geo_bound n u _ d hd) (mul_le_mul_of_nonneg_right hle hp)
  have a0 := abs_nonneg (e0 - c - spread c e0 e1 e2 e3 / 4)
  have a1 := abs_nonneg (e1 - c - spread c e0 e1 e2 e3 / 4)
  have a2 := abs_nonneg (e2 - c - spread c e0 e1 e2 e3 / 4)
  have a3 := abs_nonneg (e3 - c - spread c e0 e1 e2 e3 / 4)
  refine ⟨c1, f0, f1, f2, f3, las1, hl1, hf, hlen, hhl, hz, key _ _ h0 ?_, key _ _ h1 ?_,
    key _ _ h2 ?_, key _ _ h3 ?_⟩ <;> unfold bound0 <;> linarith


theorem sysRun_stops (i0 i1 i2 i3 : Int) (hnd : [i0, i1, i2, i3].Nodup) (n : Nat) :
    ∀ (c e0 e1 e2 e3 : ℚ) (las : List ℚ) (hl : Bool) (it : Nat), las.length = 4 →
      (∀ j, j < n → stableAt (freeAfter j (mkSys c i0 i1 i2 i3 e0 e1 e2 e3 las hl it)) = false) →
      stableAt (freeAfter n (mkSys c i0 i1 i2 i3 e0 e1 e2 e3 las hl it)) = true →
      ∀ fuel, ∃ st, sysRun (fuel + n + 1) (mkSys c i0 i1 i2 i3 e0 e1 e2 e3 las hl it) =
          SysRes.stabilized st
            (freeAfter (n + 1) (mkSys c i0 i1 i2 i3 e0 e1 e2 e3 las hl it)).server.central
            (freeAfter (n + 1) (mkSys c i0 i1 i2 i3 e0 e1 e2 e3 las hl it)).clients ∧
        st.iter = it + n + 1 := by
  induction n with
  | zero =>
    intro c e0 e1 e2 e3 las hl it hlas _ hst fuel
    simp only [freeAfter] at hst ⊢
    rw [Nat.add_zero, sysRun_mk fuel c i0 i1 i2 i3 e0 e1 e2 e3 las hl it hnd hlas, if_pos hst,
      freeRound_mk c i0 i1 i2 i3 e0 e1 e2 e3 las hl it hnd hlas]
    exact ⟨_, rfl, rfl⟩
  | succ n ih =>
    intro c e0 e1 e2 e3 las hl it hlas hno hst fuel
    have hlas1 : (if hl = true then [e0, e1, e2, e3] else las).length = 4 := by
      cases hl <;> simp [hlas]
    have h0 : stableAt (mkSys c i0 i1 i2 i3 e0 e1 e2 e3 las hl it) = false := hno 0 (by omega)
    have hfr := freeRound_mk c i0 i1 i2 i3 e0 e1 e2 e3 las hl it hnd hlas
    have hno1 : ∀ j, j < n →
        stableAt (freeAfter j (mkSys (central_of c e0 e1 e2 e3) i0 i1 i2 i3 (new_ext e0 c)
          (new_ext e1 c) (new_ext e2 c) (new_ext e3 c) (if hl then [e0, e1, e2, e3] else las)
          true (it + 1))) = false := by
      intro j hj
      have := hno (j + 1) (by omega)
      rwa [freeAfter, hfr] at this
    have hst1 : stableAt (freeAfter n (mkSys (central_of c e0 e1 e2 e3) i0 i1 i2 i3
        (new_ext e0 c) (new_ext e1 c) (new_ext e2 c) (new_ext e3 c)
        (if hl then [e0, e1, e2, e3] else las) true (it + 1))) = true := by
      rwa [freeAfter, hfr] at hst
    obtain ⟨st, hrun, hit⟩ := ih _ _ _ _ _ _ true (it + 1) hlas1 hno1 hst1 fuel
    refine ⟨st, ?_, by omega⟩
    rw [show fuel + (n + 1) + 1 = (fuel + n + 1) + 1 by omega,
      sysRun_mk (fuel + n + 1) c i0 i1 i2 i3 e0 e1 e2 e3 las hl it hnd hlas, if_neg (by simp [h0]),
      hrun]
    conv_rhs => rw [freeAfter, hfr]

theorem exists_stable (i0 i1 i2 i3 : Int) (hnd : [i0, i1, i2, i3].Nodup)
    (c e0 e1 e2 e3 : ℚ) (las : List ℚ) (hlas : las.length = 4) :
    ∃ n, 1 ≤ n ∧ stableAt (freeAfter n (mkSys c i0 i1 i2 i3 e0 e1 e2 e3 las false 0)) = true := by
  have hB := bound0_nonneg c e0 e1 e2 e3
  have hpos : (0 : ℚ) < EPS / (bound0 c e0 e1 e2 e3 + 1) := by
    apply div_pos (by norm_num [EPS]) (by linarith)
  obtain ⟨N, hN⟩ := exists_pow_lt_of_lt_one hpos (show (3 / 5 : ℚ) < 1 by norm_num)
  refine ⟨N + 1, by omega, ?_⟩
  obtain ⟨c1, f0, f1, f2, f3, las1, hl1, hf, hlen, hhl, -, b0, b1, b2, b3⟩ :=
    freeAfter_bound i0 i1 i2 i3 hnd (N + 1) c e0 e1 e2 e3 las hlas
  rw [hf, stableAt_mk]
  have hsmall : bound0 c e0 e1 e2 e3 * (3 / 5) ^ (N + 1) ≤ EPS := by
    have h1 : (3 / 5 : ℚ) ^ (N + 1) ≤ (3 / 5) ^ N := by
      rw [pow_succ]
      have : (0 : ℚ) ≤ (3 / 5) ^ N := by positivity
      nlinarith
    have h2 : bound0 c e0 e1 e2 e3 * (3 / 5) ^ (N + 1) ≤
        bound0 c e0 e1 e2 e3 * (EPS / (bound0 c e0 e1 e2 e3 + 1)) :=
      mul_le_mul_of_nonneg_left (le_trans h1 (le_of_lt hN)) hB
    have h3 : bound0 c e0 e1 e2 e3 * (EPS / (bound0 c e0 e1 e2 e3 + 1)) ≤ EPS := by
      rw [mul_div_assoc', div_le_iff₀ (by linarith)]
      have : (0 : ℚ) ≤ EPS := by norm_num [EPS]
      nlinarith
    exact le_trans h2 h3
  have key : ∀ f : ℚ, |f - c1| ≤ bound0 c e0 e1 e2 e3 * (3 / 5) ^ (N + 1) →
      |new_ext f c1 - f| ≤ EPS := by
    intro f hf
    have e : new_ext f c1 - f = -(2 / 5) * (f - c1) := by unfold new_ext; ring
    rw [e, abs_mul]
    have : |(-(2 / 5) : ℚ)| = 2 / 5 := by norm_num [abs_of_neg]
    rw [this]
    have := abs_nonneg (f - c1)
    linarith
  exact ⟨hhl (by omega), key f0 b0, key f1 b1, key f2 b2, key f3 b3⟩


/-- C4. Convergence and termination of the closed system, in exact arithmetic.
Coordinator started with `C0`, peripherals with pairwise different ids started
with `e0 .. e3`.  There is a constant `K` such that after `k` rounds every
peripheral value is within `K * (3 / 5) ^ k` of the central value (rounds
counted with the loop continued past stabilisation), and there is a round
`r ≥ 2` at which the coordinator declares stabilisation: given at least `r`
rounds the run ends stabilised with `iter = r`, with the values that `r` rounds
produce. -/
theorem C4_convergence_and_termination (C0 e0 e1 e2 e3 : ℚ) (i0 i1 i2 i3 : Int)
    (lastJunk : List ℚ) (hnd : [i0, i1, i2, i3].Nodup) (hj : lastJunk.length = 4) :
    ∃ K : ℚ, 0 ≤ K ∧
      (∀ k, ∀ cl ∈ (freeAfter k
            (sysInit C0 lastJunk [⟨i0, e0⟩, ⟨i1, e1⟩, ⟨i2, e2⟩, ⟨i3, e3⟩])).clients,
          |cl.ext - (freeAfter k
            (sysInit C0 lastJunk [⟨i0, e0⟩, ⟨i1, e1⟩, ⟨i2, e2⟩, ⟨i3, e3⟩])).server.central| ≤
            K * (3 / 5) ^ k) ∧
      ∃ r, 2 ≤ r ∧ ∀ k, ∃ st,
        sysRun (r + k) (sysInit C0 lastJunk [⟨i0, e0⟩, ⟨i1, e1⟩, ⟨i2, e2⟩, ⟨i3, e3⟩]) =
            SysRes.stabilized st
              (freeAfter r
                (sysInit C0 lastJunk [⟨i0, e0⟩, ⟨i1, e1⟩, ⟨i2, e2⟩, ⟨i3, e3⟩])).server.central
              (freeAfter r
                (sysInit C0 lastJunk [⟨i0, e0⟩, ⟨i1, e1⟩, ⟨i2, e2⟩, ⟨i3, e3⟩])).clients ∧
          st.iter = r := by
  have hs : sysInit C0 lastJunk [⟨i0, e0⟩, ⟨i1, e1⟩, ⟨i2, e2⟩, ⟨i3, e3⟩] =
      mkSys C0 i0 i1 i2 i3 e0 e1 e2 e3 lastJunk false 0 := rfl
  rw [hs]
  refine ⟨bound0 C0 e0 e1 e2 e3, bound0_nonneg _ _ _ _ _, ?_, ?_⟩
  · intro k cl hcl
    obtain ⟨c1, f0, f1, f2, f3, las1, hl1, hf, -, -, -, b0, b1, b2, b3⟩ :=
      freeAfter_bound i0 i1 i2 i3 hnd k C0 e0 e1 e2 e3 lastJunk hj
    rw [hf] at hcl ⊢
    simp only [mkSys, List.mem_cons, List.mem_singleton, List.not_mem_nil, or_false] at hcl ⊢
    rcases hcl with rfl | rfl | rfl | rfl <;> assumption
  · have hex := exists_stable i0 i1 i2 i3 hnd C0 e0 e1 e2 e3 lastJunk hj
    obtain ⟨h1, hst⟩ := Nat.find_spec hex
    have h0 : stableAt (mkSys C0 i0 i1 i2 i3 e0 e1 e2 e3 lastJunk false 0) = false := by
      rw [Bool.eq_false_iff, Ne, stableAt_mk]
      simp
    have hno : ∀ j, j < Nat.find hex →
        stableAt (freeAfter j (mkSys C0 i0 i1 i2 i3 e0 e1 e2 e3 lastJunk false 0)) = false := by
      intro j hj'
      cases j with
      | zero => exact h0
      | succ j =>
        have := Nat.find_min hex hj'
        simpa using this
    refine ⟨Nat.find hex + 1, by omega, ?_⟩
    intro k
    obtain ⟨st, hrun, hit⟩ := sysRun_stops i0 i1 i2 i3 hnd (Nat.find hex) C0 e0 e1 e2 e3 lastJunk
      false 0 hj hno hst k
    refine ⟨st, ?_, by omega⟩
    rw [show Nat.find hex + 1 + k = k + Nat.find hex + 1 by omega]
    exact hrun

/-- The statement of C4 for the seed values. -/
theorem C4_convergence_and_termination_witness :
    ∃ K : ℚ, 0 ≤ K ∧
      (∀ k, ∀ cl ∈ (freeAfter k
            (sysInit 0 [0, 0, 0, 0] [⟨1, 10⟩, ⟨2, 10⟩, ⟨3, 10⟩, ⟨4, 10⟩])).clients,
          |cl.ext - (freeAfter k
            (sysInit 0 [0, 0, 0, 0] [⟨1, 10⟩, ⟨2, 10⟩, ⟨3, 10⟩, ⟨4, 10⟩])).server.central| ≤
            K * (3 / 5) ^ k) ∧
      ∃ r, 2 ≤ r ∧ ∀ k, ∃ st,
        sysRun (r + k) (sysInit 0 [0, 0, 0, 0] [⟨1, 10⟩, ⟨2, 10⟩, ⟨3, 10⟩, ⟨4, 10⟩]) =
            SysRes.stabilized st
              (freeAfter r
                (sysInit 0 [0, 0, 0, 0] [⟨1, 10⟩, ⟨2, 10⟩, ⟨3, 10⟩, ⟨4, 10⟩])).server.central
              (freeAfter r
                (sysInit 0 [0, 0, 0, 0] [⟨1, 10⟩, ⟨2, 10⟩, ⟨3, 10⟩, ⟨4, 10⟩])).clients ∧
          st.iter = r :=
  C4_convergence_and_termination 0 10 10 10 10 1 2 3 4 [0, 0, 0, 0] (by decide) rfl

theorem barrierFrom_nil (acc : List Event) : BarrierFrom acc [] := by
  intro pre e post h
  simp at h

theorem barrierFrom_cons (acc : List Event) (e : Event) (tr : List Event)
    (h1 : BarrierAt acc e) (h2 : BarrierFrom (acc ++ [e]) tr) : BarrierFrom acc (e :: tr) := by
  intro pre x post h
  cases pre with
  | nil =>
    simp at h
    obtain ⟨rfl, -⟩ := h
    simpa using h1
  | cons p pre =>
    simp at h
    obtain ⟨rfl, rfl⟩ := h
    have := h2 pre x post rfl
    simpa using this

theorem barrierFrom_append (acc a b : List Event)
    (h1 : BarrierFrom acc a) (h2 : BarrierFrom (acc ++ a) b) : BarrierFrom acc (a ++ b) := by
  induction a generalizing acc with
  | nil => simpa using h2
  | cons x a ih =>
    rw [List.cons_append]
    apply barrierFrom_cons
    · simpa using h1 [] x a rfl
    · apply ih
      · intro pre e post h
        have := h1 (x :: pre) e post (by rw [h]; rfl)
        simpa using this
      · simpa using h2

theorem nCentral_snoc (acc : List Event) (e : Event) :
    nCentral (acc ++ [e]) = nCentral acc + (match e with | .sendCentral _ _ => 1 | _ => 0) := by
  cases e <;> simp [nCentral, List.countP_append]

theorem nRecv_snoc (acc : List Event) (e : Event) :
    nRecv (acc ++ [e]) = nRecv acc + (match e with | .recvTemp _ _ _ => 1 | _ => 0) := by
  cases e <;> simp [nRecv, List.countP_append]

theorem nDone_snoc (acc : List Event) (e : Event) :
    nDone (acc ++ [e]) = nDone acc + (match e with | .sendDone _ _ => 1 | _ => 0) := by
  cases e <;> simp [nDone, List.countP_append]

theorem nRecvOn_snoc (c : Nat) (acc : List Event) (e : Event) :
    nRecvOn c (acc ++ [e]) =
      nRecvOn c acc + (match e with | .recvTemp i _ _ => if i = c then 1 else 0 | _ => 0) := by
  cases e <;> simp [nRecvOn, List.countP_append, List.countP_cons]

theorem broadcast_barrier (v : ℚ) (ok : Nat → Bool) (k n : Nat) :
    ∀ (i : Nat) (acc : List Event), i + n = 4 → nCentral acc = 4 * k + i → nRecv acc = 4 * k →
      (∀ c, c < 4 → nRecvOn c acc = k) → nDone acc = 0 →
      BarrierFrom acc (broadcastFrom v ok n i).1 ∧
        ((broadcastFrom v ok n i).2 = true →
          nCentral (acc ++ (broadcastFrom v ok n i).1) = 4 * (k + 1) ∧
          nRecv (acc ++ (broadcastFrom v ok n i).1) = 4 * k ∧
          (∀ c, c < 4 → nRecvOn c (acc ++ (broadcastFrom v ok n i).1) = k) ∧
          nDone (acc ++ (broadcastFrom v ok n i).1) = 0) := by
  induction n with
  | zero =>
    intro i acc hi hc hr hon hd
    simp only [broadcastFrom, List.append_nil]
    exact ⟨barrierFrom_nil acc, fun _ => ⟨by omega, hr, hon, hd⟩⟩
  | succ n ih =>
    intro i acc hi hc hr hon hd
    rw [broadcastFrom]
    by_cases hok : ok i = true
    · rw [if_pos hok]
      have hih := ih (i + 1) (acc ++ [Event.sendCentral i v]) (by omega)
        (by rw [nCentral_snoc]; simp only; omega) (by rw [nRecv_snoc]; simpa using hr)
        (fun c hc4 => by rw [nRecvOn_snoc]; simpa using hon c hc4)
        (by rw [nDone_snoc]; simpa using hd)
      refine ⟨barrierFrom_cons acc _ _ ⟨k, by omega, hc, hr, hon, hd⟩ hih.1, ?_⟩
      intro h2
      have := hih.2 h2
      simpa using this
    · rw [if_neg hok]
      exact ⟨barrierFrom_nil acc, fun h => by simp at h⟩


theorem collect_barrier (rx : Nat → Rx) (k n : Nat) :
    ∀ (i : Nat) (acc : List Event) (st : Server), i + n = 4 → nCentral acc = 4 * (k + 1) →
      nRecv acc = 4 * k + i → (∀ c, c < 4 → nRecvOn c acc = if c < i then k + 1 else k) →
      nDone acc = 0 →
      BarrierFrom acc (collectFrom rx n i st).1 ∧
        (∀ s, (collectFrom rx n i st).2 = Collected.ok s →
          nCentral (acc ++ (collectFrom rx n i st).1) = 4 * (k + 1) ∧
          nRecv (acc ++ (collectFrom rx n i st).1) = 4 * (k + 1) ∧
          (∀ c, c < 4 → nRecvOn c (acc ++ (collectFrom rx n i st).1) = k + 1) ∧
          nDone (acc ++ (collectFrom rx n i st).1) = 0) := by
  induction n with
  | zero =>
    intro i acc st hi hc hr hon hd
    simp only [collectFrom, List.append_nil]
    refine ⟨barrierFrom_nil acc, fun _ _ => ⟨hc, by omega, ?_, hd⟩⟩
    intro c hc4
    rw [hon c hc4, if_pos (by omega)]
  | succ n ih =>
    intro i acc st hi hc hr hon hd
    have hat : BarrierAt acc (Event.recvTemp i (rx i).cid (rx i).t) :=
      ⟨k, by omega, hc, hr, hon, hd⟩
    rw [collectFrom]
    by_cases h1 : (rx i).ret ≤ 0
    · rw [if_pos h1]
      exact ⟨barrierFrom_nil acc, fun s h => by simp at h⟩
    · rw [if_neg h1]
      by_cases h2 : (rx i).n ≠ 2
      · rw [if_pos h2]
        exact ⟨barrierFrom_nil acc, fun s h => by simp at h⟩
      · rw [if_neg h2]
        cases hp : placeFrom (rx i).cid (rx i).t NCLIENTS 0 st with
        | none =>
          simp only
          exact ⟨barrierFrom_cons acc _ _ hat (barrierFrom_nil _), fun s h => by simp at h⟩
        | some st1 =>
          simp only
          have hih := ih (i + 1) (acc ++ [Event.recvTemp i (rx i).cid (rx i).t]) st1 (by omega)
            (by rw [nCentral_snoc]; simpa using hc) (by rw [nRecv_snoc]; simp only; omega)
            (fun c hc4 => by
              rw [nRecvOn_snoc, hon c hc4]
              simp only
              split_ifs <;> omega)
            (by rw [nDone_snoc]; simpa using hd)
          refine ⟨barrierFrom_cons acc _ _ hat hih.1, ?_⟩
          intro s hs
          have := hih.2 s hs
          simpa using this

theorem done_barrier (v : ℚ) (ok : Nat → Bool) (k n : Nat) :
    ∀ (i : Nat) (acc : List Event), i + n = 4 → nCentral acc = 4 * (k + 1) →
      nRecv acc = 4 * (k + 1) → (∀ c, c < 4 → nRecvOn c acc = k + 1) →
      BarrierFrom acc (doneFrom v ok n i) := by
  induction n with
  | zero =>
    intro i acc _ _ _ _
    exact barrierFrom_nil acc
  | succ n ih =>
    intro i acc hi hc hr hon
    rw [doneFrom]
    by_cases hok : ok i = true
    · rw [if_pos hok]
      refine barrierFrom_cons acc _ _ ⟨k, by omega, hc, hr, hon⟩ ?_
      exact ih (i + 1) _ (by omega) (by rw [nCentral_snoc]; simpa using hc)
        (by rw [nRecv_snoc]; simpa using hr)
        (fun c hc4 => by rw [nRecvOn_snoc]; simpa using hon c hc4)
    · rw [if_neg hok]
      exact ih (i + 1) acc (by omega) hc hr hon

theorem round_barrier (inp : RoundIn) (st : Server) (k : Nat) (acc : List Event)
    (hc : nCentral acc = 4 * k) (hr : nRecv acc = 4 * k) (hon : ∀ c, c < 4 → nRecvOn c acc = k)
    (hd : nDone acc = 0) :
    BarrierFrom acc (round inp st).1 ∧
      (∀ s, (round inp st).2 = RoundRes.next s →
        nCentral (acc ++ (round inp st).1) = 4 * (k + 1) ∧
        nRecv (acc ++ (round inp st).1) = 4 * (k + 1) ∧
        (∀ c, c < 4 → nRecvOn c (acc ++ (round inp st).1) = k + 1) ∧
        nDone (acc ++ (round inp st).1) = 0) := by
  obtain ⟨hb1, hb2⟩ := broadcast_barrier st.central inp.sendOk k NCLIENTS 0 acc rfl
    (by omega) hr hon hd
  unfold round
  simp only
  by_cases hbo : (broadcastFrom st.central inp.sendOk NCLIENTS 0).2 = false
  · rw [if_pos hbo]
    exact ⟨hb1, fun s h => by simp at h⟩
  · rw [if_neg hbo]
    obtain ⟨c1, c2, c3, c4⟩ := hb2 (by simpa using hbo)
    obtain ⟨hc1, hc2⟩ := collect_barrier inp.rx k NCLIENTS 0
      (acc ++ (broadcastFrom st.central inp.sendOk NCLIENTS 0).1) { st with iter := st.iter + 1 }
      rfl c1 (by omega) (fun c h4 => by rw [c3 c h4, if_neg (by omega)]) c4
    cases hcol : (collectFrom inp.rx NCLIENTS 0 { st with iter := st.iter + 1 }).2 with
    | fail s1 =>
      simp only
      exact ⟨barrierFrom_append _ _ _ hb1 hc1, fun s h => by simp at h⟩
    | ok s1 =>
      simp only
      obtain ⟨d1, d2, d3, d4⟩ := hc2 s1 hcol
      by_cases hcv : converged s1 = true
      · rw [if_pos hcv]
        refine ⟨?_, fun s h => by simp at h⟩
        apply barrierFrom_append _ _ _ (barrierFrom_append _ _ _ hb1 hc1)
        rw [← List.append_assoc]
        exact done_barrier _ _ k NCLIENTS 0 _ rfl d1 d2 d3
      · rw [if_neg hcv]
        refine ⟨barrierFrom_append _ _ _ hb1 hc1, fun s _ => ?_⟩
        rw [← List.append_assoc]
        exact ⟨d1, d2, d3, d4⟩

theorem run_barrier (env : Nat → RoundIn) (fuel : Nat) :
    ∀ (st : Server) (k : Nat) (acc : List Event), nCentral acc = 4 * k → nRecv acc = 4 * k →
      (∀ c, c < 4 → nRecvOn c acc = k) → nDone acc = 0 →
      BarrierFrom acc (run env fuel st).1 := by
  induction fuel with
  | zero =>
    intro st k acc _ _ _ _
    exact barrierFrom_nil acc
  | succ fuel ih =>
    intro st k acc hc hr hon hd
    obtain ⟨h1, h2⟩ := round_barrier (env (st.iter + 1)) st k acc hc hr hon hd
    rw [run]
    cases hres : (round (env (st.iter + 1)) st).2 with
    | abort c s1 => simpa using h1
    | stabilized s1 v => simpa using h1
    | next s1 =>
      simp only
      obtain ⟨d1, d2, d3, d4⟩ := h2 s1 hres
      exact barrierFrom_append _ _ _ h1 (ih s1 (k + 1) _ d1 d2 d3 d4)

/-- C5. Round barrier.  Split the trace of any run of the coordinator, from any
state and with any behaviour of the transport, at any event.  If the event is
a CENTRAL on connection `i`, then with `k` rounds complete exactly `4 * k + i`
CENTRAL and exactly `k` TEMP per connection precede it.  If it is a TEMP read
on connection `i`, all `4 * (k + 1)` CENTRAL up to its round precede it, and
one TEMP more on each connection before `i`.  If it is a DONE, every
connection has been read once in each round.  No DONE precedes a CENTRAL or a
TEMP. -/
theorem C5_round_barrier (env : Nat → RoundIn) (fuel : Nat) (st : Server)
    (pre post : List Event) (e : Event) (h : (run env fuel st).1 = pre ++ e :: post) :
    BarrierAt pre e := by
  have := run_barrier env fuel st 0 [] rfl rfl (fun _ _ => rfl) rfl pre e post h
  simpa using this


theorem steady_trace :
    (run (steadyEnv 5) 2 steadyInit).1 =
      [Event.sendCentral 0 0, Event.sendCentral 1 0, Event.sendCentral 2 0, Event.sendCentral 3 0,
        Event.recvTemp 0 1 5, Event.recvTemp 1 2 5] ++
      Event.recvTemp 2 3 5 ::
      [Event.recvTemp 3 4 5,
        Event.sendCentral 0 (10 / 3), Event.sendCentral 1 (10 / 3), Event.sendCentral 2 (10 / 3),
        Event.sendCentral 3 (10 / 3),
        Event.recvTemp 0 1 5, Event.recvTemp 1 2 5, Event.recvTemp 2 3 5, Event.recvTemp 3 4 5,
        Event.sendDone 0 (40 / 9), Event.sendDone 1 (40 / 9), Event.sendDone 2 (40 / 9),
        Event.sendDone 3 (40 / 9)] := by
  have h1 : round (steadyEnv 5 1) steadyInit =
      (centrals 0 ++ recvs (steadyEnv 5 1).rx,
        RoundRes.next ⟨10 / 3, [1, 2, 3, 4], [5, 5, 5, 5], [0, 0, 0, 0], true, 1⟩) := by
    rw [round_own (steadyEnv 5 1) steadyInit (steadyEnv_own 5 1) (fun _ _ => rfl) rfl rfl]
    simp [converged, collectedOf, collected, steadyInit, advanced, new_central, sumFrom, NCLIENTS,
      vals, steadyEnv]
    norm_num
  have h2 : round (steadyEnv 5 2) ⟨10 / 3, [1, 2, 3, 4], [5, 5, 5, 5], [0, 0, 0, 0], true, 1⟩ =
      (centrals (10 / 3) ++ recvs (steadyEnv 5 2).rx ++ dones (40 / 9),
        RoundRes.stabilized ⟨10 / 3, [1, 2, 3, 4], [5, 5, 5, 5], [5, 5, 5, 5], true, 2⟩ (40 / 9)) := by
    rw [round_own (steadyEnv 5 2) ⟨10 / 3, [1, 2, 3, 4], [5, 5, 5, 5], [0, 0, 0, 0], true, 1⟩
      (steadyEnv_own 5 2) (fun _ _ => rfl) rfl rfl]
    simp [converged, deltaFrom, collectedOf, collected, advanced, new_central, sumFrom, NCLIENTS,
      vals, steadyEnv, doneFrom, dones, EPS]
    norm_num
  have e1 : steadyInit.iter + 1 = 1 := rfl
  rw [run, e1, h1]
  simp only
  rw [run]
  simp only [Nat.reduceAdd, h2]
  simp [centrals, recvs, dones, steadyEnv]

/-- The barrier of C5 at the third receive of a two-round run. -/
theorem C5_round_barrier_witness :
    BarrierAt
      [Event.sendCentral 0 0, Event.sendCentral 1 0, Event.sendCentral 2 0, Event.sendCentral 3 0,
        Event.recvTemp 0 1 5, Event.recvTemp 1 2 5]
      (Event.recvTemp 2 3 5) :=
  C5_round_barrier (steadyEnv 5) 2 steadyInit _ _ _ steady_trace

theorem mach_collect_own_aux {V : Type} (A : Mach.Arith V) (i0 i1 i2 i3 : Int) (c : V)
    (p0 p1 p2 p3 l0 l1 l2 l3 : V) (hl : Bool) (it : Nat) (rx : Nat → Mach.Rx V)
    (h : Mach.OwnIds [i0, i1, i2, i3] rx) :
    Mach.collectFrom A rx NCLIENTS 0 ⟨c, [i0, i1, i2, i3], [p0, p1, p2, p3], [l0, l1, l2, l3], hl, it⟩ =
      some ⟨c, [i0, i1, i2, i3], [(rx 0).t, (rx 1).t, (rx 2).t, (rx 3).t],
            if hl then [p0, p1, p2, p3] else [l0, l1, l2, l3], hl, it⟩ := by
  obtain ⟨-, hnd, hr⟩ := h
  obtain ⟨a0, b0, c0⟩ := hr 0 (by norm_num)
  obtain ⟨a1, b1, c1⟩ := hr 1 (by norm_num)
  obtain ⟨a2, b2, c2⟩ := hr 2 (by norm_num)
  obtain ⟨a3, b3, c3⟩ := hr 3 (by norm_num)
  simp at c0 c1 c2 c3
  simp at hnd
  obtain ⟨⟨h01, h02, h03⟩, ⟨h12, h13⟩, h23⟩ := hnd
  cases hl <;>
  simp [Mach.collectFrom, Mach.placeFrom, NCLIENTS, a0, a1, a2, a3, b0, b1, b2, b3, c0, c1, c2, c3,
    not_le.mpr, h01, h02, h03, h12, h13, h23, Ne.symm h01, Ne.symm h02, Ne.symm h03, Ne.symm h12,
    Ne.symm h13, Ne.symm h23]

theorem mach_collect_own {V : Type} (A : Mach.Arith V) (inp : Mach.RoundIn V) (st : Mach.Server V)
    (h : Mach.OwnIds st.ids inp.rx) (hc : st.curr_ext.length = 4) (hl : st.last_ext.length = 4) :
    Mach.collectFrom A inp.rx NCLIENTS 0 { st with iter := st.iter + 1 } =
      some (Mach.collectedOf inp st) := by
  obtain ⟨c, ids, cur, las, hv, it⟩ := st
  obtain ⟨i0, i1, i2, i3, rfl⟩ := len4 ids h.1
  obtain ⟨p0, p1, p2, p3, rfl⟩ := len4 cur hc
  obtain ⟨l0, l1, l2, l3, rfl⟩ := len4 las hl
  rw [mach_collect_own_aux A i0 i1 i2 i3 c p0 p1 p2 p3 l0 l1 l2 l3 hv (it + 1) inp.rx h]
  rfl

theorem mach_broadcast_ok (sendOk : Nat → Bool) (h : ∀ i, i < 4 → sendOk i = true) :
    Mach.broadcastFrom sendOk NCLIENTS 0 = true := by
  simp [Mach.broadcastFrom, NCLIENTS, h]

theorem mach_converged_iff {V : Type} (A : Mach.Arith V) (st : Mach.Server V) :
    Mach.converged A st = true ↔
      st.have_last = true ∧
        ∀ i, i < 4 →
          Mach.exceeds A (st.curr_ext.getD i A.zero) (st.last_ext.getD i A.zero) = false := by
  unfold Mach.converged
  cases hh : st.have_last
  · simp
  · simp only [if_true, true_and]
    simp only [Mach.deltaFrom, NCLIENTS]
    constructor
    · intro h i hi
      simp at h
      obtain ⟨h0, h1, h2, h3⟩ := h
      interval_cases i <;> simp only [List.getD_eq_getElem?_getD] <;> assumption
    · intro h
      rw [h 0 (by norm_num), h 1 (by norm_num), h 2 (by norm_num), h 3 (by norm_num)]
      simp

theorem mach_round_own {V : Type} (A : Mach.Arith V) (inp : Mach.RoundIn V) (st : Mach.Server V)
    (h : Mach.OwnIds st.ids inp.rx) (hs : ∀ i, i < 4 → inp.sendOk i = true)
    (hc : st.curr_ext.length = 4) (hl : st.last_ext.length = 4) :
    Mach.round A inp st =
      if Mach.converged A (Mach.collectedOf inp st) then
        .stabilized (Mach.collectedOf inp st) (Mach.new_central A (Mach.collectedOf inp st))
      else .next (Mach.advanced A (Mach.collectedOf inp st)) := by
  unfold Mach.round
  simp only [mach_broadcast_ok inp.sendOk hs]
  rw [mach_collect_own A inp st h hc hl]
  simp [Mach.advanced]

theorem mach_collectedOf_len {V : Type} (A : Mach.Arith V) (inp : Mach.RoundIn V)
    (st : Mach.Server V) (hc : st.curr_ext.length = 4) (hl : st.last_ext.length = 4) :
    (Mach.advanced A (Mach.collectedOf inp st)).curr_ext.length = 4 ∧
      (Mach.advanced A (Mach.collectedOf inp st)).last_ext.length = 4 := by
  unfold Mach.advanced Mach.collectedOf
  cases st.have_last <;> simp [hc, hl]

theorem mach_stateAfter_succ {V : Type} (A : Mach.Arith V) (env : Nat → Mach.RoundIn V) (k : Nat)
    (st0 st : Mach.Server V)
    (hown : ∀ r, Mach.OwnIds st0.ids (env r).rx)
    (hsend : ∀ r i, i < 4 → (env r).sendOk i = true)
    (hc : st0.curr_ext.length = 4) (hl : st0.last_ext.length = 4)
    (hreach : Mach.stateAfter A env (k + 1) st0 = some st) :
    st.iter = st0.iter + (k + 1) ∧ st.ids = st0.ids ∧ st.have_last = true ∧
      st.curr_ext = [((env (st0.iter + (k + 1))).rx 0).t, ((env (st0.iter + (k + 1))).rx 1).t,
        ((env (st0.iter + (k + 1))).rx 2).t, ((env (st0.iter + (k + 1))).rx 3).t] ∧
      st.last_ext.length = 4 := by
  induction k generalizing st0 with
  | zero =>
    simp only [Mach.stateAfter] at hreach
    rw [mach_round_own A (env (st0.iter + 1)) st0 (hown _) (hsend _) hc hl] at hreach
    by_cases hcv : Mach.converged A (Mach.collectedOf (env (st0.iter + 1)) st0) = true
    · rw [if_pos hcv] at hreach
      simp at hreach
    · rw [if_neg hcv] at hreach
      simp only [Option.some.injEq] at hreach
      subst hreach
      exact ⟨rfl, rfl, rfl, rfl, (mach_collectedOf_len A _ st0 hc hl).2⟩
  | succ k ih =>
    rw [Mach.stateAfter] at hreach
    rw [mach_round_own A (env (st0.iter + 1)) st0 (hown _) (hsend _) hc hl] at hreach
    by_cases hcv : Mach.converged A (Mach.collectedOf (env (st0.iter + 1)) st0) = true
    · rw [if_pos hcv] at hreach
      simp at hreach
    · rw [if_neg hcv] at hreach
      simp only at hreach
      have hlen := mach_collectedOf_len A (env (st0.iter + 1)) st0 hc hl
      obtain ⟨h1, h2, h3, h4, h5⟩ :=
        ih (Mach.advanced A (Mach.collectedOf (env (st0.iter + 1)) st0)) hown hlen.1 hlen.2 hreach
      have e : (Mach.advanced A (Mach.collectedOf (env (st0.iter + 1)) st0)).iter = st0.iter + 1 :=
        rfl
      rw [e] at h1 h4
      refine ⟨by rw [h1]; omega, h2, h3, ?_, h5⟩
      rw [h4, show st0.iter + 1 + (k + 1) = st0.iter + (k + 1 + 1) by omega]

theorem mach_place_have_last {V : Type} (A : Mach.Arith V) (cid : Int) (t : V) (n k : Nat)
    (st s : Mach.Server V) (h : Mach.placeFrom A cid t n k st = some s) :
    s.have_last = st.have_last := by
  induction n generalizing k with
  | zero => simp [Mach.placeFrom] at h
  | succ n ih =>
    unfold Mach.placeFrom at h
    by_cases h1 : st.ids.getD k 0 = cid
    · rw [if_pos h1] at h
      simp only [Option.some.injEq] at h
      rw [← h]
    · rw [if_neg h1] at h
      exact ih (k + 1) h

theorem mach_collect_have_last {V : Type} (A : Mach.Arith V) (rx : Nat → Mach.Rx V) (n i : Nat)
    (st s : Mach.Server V) (h : Mach.collectFrom A rx n i st = some s) :
    s.have_last = st.have_last := by
  induction n generalizing i st with
  | zero => simp [Mach.collectFrom] at h; rw [h]
  | succ n ih =>
    rw [Mach.collectFrom] at h
    split_ifs at h with h1 h2
    cases hp : Mach.placeFrom A (rx i).cid (rx i).t NCLIENTS 0 st with
    | none => simp [hp] at h
    | some st1 =>
      simp only [hp] at h
      rw [ih (i + 1) st1 h]
      exact mach_place_have_last A _ _ _ _ _ _ hp

theorem mach_first_round {V : Type} (A : Mach.Arith V) (inp : Mach.RoundIn V) (st : Mach.Server V)
    (h : st.have_last = false) (s : Mach.Server V) (v : V) :
    Mach.round A inp st ≠ Mach.RoundRes.stabilized s v := by
  unfold Mach.round
  simp only
  split_ifs with hb
  · simp
  · cases hc : Mach.collectFrom A inp.rx NCLIENTS 0 { st with iter := st.iter + 1 } with
    | none => simp
    | some st1 =>
      have hh := mach_collect_have_last A inp.rx NCLIENTS 0 _ st1 hc
      have : Mach.converged A st1 = false := by
        unfold Mach.converged
        rw [hh]
        simp [h]
      simp [this]


theorem mach_exceeds_exact (a b : ℚ) : Mach.exceeds Mach.exact a b = false ↔ |a - b| ≤ EPS := by
  have habs : (if a < b then b - a else a - b) = |a - b| := by
    split_ifs with h
    · rw [abs_of_neg (by linarith)]; ring
    · rw [abs_of_nonneg (by linarith)]
  simp [Mach.exceeds, Mach.exact, habs]

theorem mach_sameEnv_own {V : Type} (t : Nat → V) (k : Nat) :
    Mach.OwnIds [1, 2, 3, 4] (Mach.sameEnv t k).rx := by
  refine ⟨rfl, by decide, ?_⟩
  intro i hi
  interval_cases i <;> simp [Mach.sameEnv]

/-- C1, amended.  For every arithmetic of the temperature type: four pairwise
different ids are registered, every CENTRAL is sent and every connection
answers each round with a well-formed TEMP carrying its own id; `st` is the
state in which round `r` is entered.  Round `r` ends with stabilisation if and
only if `2 ≤ r` and for each of the four connections the test of lines 135-137
on the values reported in rounds `r` and `r - 1` (their difference, negated
when below 0, compared with `> EPS`) is false.  The first round never ends
with stabilisation, whatever the transport delivers.  In the exact arithmetic
the test is false exactly when the absolute difference is at most `EPS`. -/
theorem C1_decision_in_machine_arithmetic {V : Type} (A : Mach.Arith V)
    (env : Nat → Mach.RoundIn V) (init st : Mach.Server V) (r : Nat)
    (hown : ∀ k, Mach.OwnIds init.ids (env k).rx)
    (hsend : ∀ k i, i < 4 → (env k).sendOk i = true)
    (hc : init.curr_ext.length = 4) (hl : init.last_ext.length = 4)
    (h0 : init.have_last = false) (hi : init.iter = 0)
    (hr : 1 ≤ r) (hreach : Mach.stateAfter A env (r - 1) init = some st) :
    ((∃ s v, Mach.round A (env r) st = Mach.RoundRes.stabilized s v) ↔
        2 ≤ r ∧
          ∀ i, i < 4 → Mach.exceeds A ((env r).rx i).t ((env (r - 1)).rx i).t = false) ∧
    (∀ inp s v, Mach.round A inp init ≠ Mach.RoundRes.stabilized s v) ∧
    (∀ a b : ℚ, Mach.exceeds Mach.exact a b = false ↔ |a - b| ≤ EPS) := by
  refine ⟨?_, fun inp s v => mach_first_round A inp init h0 s v, mach_exceeds_exact⟩
  obtain ⟨k, rfl⟩ : ∃ k, r = k + 1 := ⟨r - 1, by omega⟩
  simp only [Nat.add_sub_cancel] at hreach ⊢
  cases k with
  | zero =>
    simp only [Mach.stateAfter, Option.some.injEq] at hreach
    subst hreach
    constructor
    · rintro ⟨s, v, h⟩
      exact absurd h (mach_first_round A _ _ h0 s v)
    · rintro ⟨h, -⟩
      omega
  | succ k =>
    obtain ⟨h1, h2, h3, h4, h5⟩ := mach_stateAfter_succ A env k init st hown hsend hc hl hreach
    have hc1 : st.curr_ext.length = 4 := by rw [h4]; rfl
    rw [mach_round_own A (env (k + 1 + 1)) st (h2 ▸ hown _) (hsend _) hc1 h5]
    have hcv := mach_converged_iff A (Mach.collectedOf (env (k + 1 + 1)) st)
    rw [hi, Nat.zero_add] at h4
    have e1 : (Mach.collectedOf (env (k + 1 + 1)) st).have_last = true := h3
    have e2 : (Mach.collectedOf (env (k + 1 + 1)) st).curr_ext =
        [((env (k + 1 + 1)).rx 0).t, ((env (k + 1 + 1)).rx 1).t, ((env (k + 1 + 1)).rx 2).t,
          ((env (k + 1 + 1)).rx 3).t] := rfl
    have e3 : (Mach.collectedOf (env (k + 1 + 1)) st).last_ext =
        [((env (k + 1)).rx 0).t, ((env (k + 1)).rx 1).t, ((env (k + 1)).rx 2).t,
          ((env (k + 1)).rx 3).t] := by
      simp [Mach.collectedOf, h3, h4]
    rw [e1, e2, e3] at hcv
    have hv : (∀ i, i < 4 →
          Mach.exceeds A
            ([((env (k + 1 + 1)).rx 0).t, ((env (k + 1 + 1)).rx 1).t, ((env (k + 1 + 1)).rx 2).t,
              ((env (k + 1 + 1)).rx 3).t].getD i A.zero)
            ([((env (k + 1)).rx 0).t, ((env (k + 1)).rx 1).t, ((env (k + 1)).rx 2).t,
              ((env (k + 1)).rx 3).t].getD i A.zero) = false) ↔
        ∀ i, i < 4 →
          Mach.exceeds A ((env (k + 1 + 1)).rx i).t ((env (k + 1)).rx i).t = false := by
      constructor
      · intro h i hi
        have := h i hi
        interval_cases i <;> simpa using this
      · intro h i hi
        have := h i hi
        interval_cases i <;> simpa using this
    rw [hv] at hcv
    by_cases hconv : Mach.converged A (Mach.collectedOf (env (k + 1 + 1)) st) = true
    · rw [if_pos hconv]
      have := hcv.mp hconv
      simp only [Mach.RoundRes.stabilized.injEq, exists_and_left, exists_eq', and_true, true_iff]
      exact ⟨by omega, this.2⟩
    · rw [if_neg hconv]
      simp only [false_iff, not_and, reduceCtorEq, exists_false]
      intro _ hall
      exact hconv (hcv.mpr ⟨rfl, hall⟩)

theorem mach_nanEnv_rx :
    (Mach.nanEnv 1).rx 0 = ⟨1, 2, 1, none⟩ ∧ (Mach.nanEnv 1).rx 1 = ⟨1, 2, 2, some 6⟩ ∧
    (Mach.nanEnv 1).rx 2 = ⟨1, 2, 3, some 6⟩ ∧ (Mach.nanEnv 1).rx 3 = ⟨1, 2, 4, some 6⟩ ∧
    (Mach.nanEnv 2).rx 0 = ⟨1, 2, 1, none⟩ ∧ (Mach.nanEnv 2).rx 1 = ⟨1, 2, 2, none⟩ ∧
    (Mach.nanEnv 2).rx 2 = ⟨1, 2, 3, none⟩ ∧ (Mach.nanEnv 2).rx 3 = ⟨1, 2, 4, none⟩ := by
  simp [Mach.nanEnv]

/-- C1, as stated, fails on the arithmetic of `double`.  Coordinator started
with 0, peripheral 1 with `nan`, the others with 10: round 1 ends without
stabilisation with a central value that is not a number, round 2 ends with
stabilisation because no `delta > EPS` holds, although the difference of the
two reports of a peripheral is not a number and so is not at most `EPS`. -/
theorem C1_nan_counterexample :
    Mach.stateAfter Mach.withNaN Mach.nanEnv 1 Mach.nanInit =
        some ⟨none, [1, 2, 3, 4], [none, some 6, some 6, some 6],
          [some 0, some 0, some 0, some 0], true, 1⟩ ∧
      Mach.round Mach.withNaN (Mach.nanEnv 2)
          ⟨none, [1, 2, 3, 4], [none, some 6, some 6, some 6],
            [some 0, some 0, some 0, some 0], true, 1⟩ =
        Mach.RoundRes.stabilized
          ⟨none, [1, 2, 3, 4], [none, none, none, none], [none, some 6, some 6, some 6],
            true, 2⟩ none ∧
      ¬ (2 ≤ 2 ∧ ∀ i, i < 4 →
          Mach.withinEps ((Mach.nanEnv 2).rx i).t ((Mach.nanEnv (2 - 1)).rx i).t) := by
  obtain ⟨a0, a1, a2, a3, b0, b1, b2, b3⟩ := mach_nanEnv_rx
  have hs : ∀ r i, (Mach.nanEnv r).sendOk i = true := fun _ _ => rfl
  refine ⟨?_, ?_, ?_⟩
  · simp [Mach.stateAfter, Mach.round, Mach.broadcastFrom, Mach.collectFrom, Mach.placeFrom,
      Mach.converged, Mach.new_central, Mach.sumFrom, NCLIENTS, Mach.nanInit, hs, a0, a1, a2, a3,
      Mach.withNaN]
  · simp [Mach.round, Mach.broadcastFrom, Mach.collectFrom, Mach.placeFrom,
      Mach.converged, Mach.deltaFrom, Mach.exceeds, Mach.new_central, Mach.sumFrom, NCLIENTS,
      hs, b0, b1, b2, b3, Mach.withNaN]
  · rintro ⟨-, h⟩
    obtain ⟨x, y, hx, -, -⟩ := h 0 (by norm_num)
    rw [b0] at hx
    simp at hx

theorem mach_steady_reach :
    Mach.stateAfter Mach.exact (Mach.sameEnv fun _ => (5 : ℚ)) 1 Mach.exactInit =
      some ⟨10 / 3, [1, 2, 3, 4], [5, 5, 5, 5], [0, 0, 0, 0], true, 1⟩ := by
  simp only [Mach.stateAfter]
  rw [mach_round_own Mach.exact (Mach.sameEnv (fun _ => (5 : ℚ)) (Mach.exactInit.iter + 1))
    Mach.exactInit (mach_sameEnv_own _ _) (fun _ _ => rfl) rfl rfl]
  simp [Mach.converged, Mach.collectedOf, Mach.exactInit, Mach.advanced, Mach.new_central,
    Mach.sumFrom, NCLIENTS, Mach.sameEnv, Mach.exact]
  norm_num

/-- The decision of amended C1 in the exact arithmetic, on a transport that
reports 5 on every connection in every round, at round 2. -/
theorem C1_decision_in_machine_arithmetic_witness :
    ((∃ s v, Mach.round Mach.exact (Mach.sameEnv (fun _ => (5 : ℚ)) 2)
          ⟨10 / 3, [1, 2, 3, 4], [5, 5, 5, 5], [0, 0, 0, 0], true, 1⟩ =
          Mach.RoundRes.stabilized s v) ↔
        2 ≤ 2 ∧
          ∀ i, i < 4 →
            Mach.exceeds Mach.exact ((Mach.sameEnv (fun _ => (5 : ℚ)) 2).rx i).t
              ((Mach.sameEnv (fun _ => (5 : ℚ)) (2 - 1)).rx i).t = false) ∧
    (∀ inp s v, Mach.round Mach.exact inp Mach.exactInit ≠ Mach.RoundRes.stabilized s v) ∧
    (∀ a b : ℚ, Mach.exceeds Mach.exact a b = false ↔ |a - b| ≤ EPS) :=
  C1_decision_in_machine_arithmetic Mach.exact (Mach.sameEnv fun _ => (5 : ℚ)) Mach.exactInit _ 2
    (mach_sameEnv_own _) (fun _ _ _ => rfl) rfl rfl rfl rfl (by decide) mach_steady_reach

theorem scan_wrong_keyword (tag line : List Char) (h : ∀ r, scanLit tag line ≠ Conv.ok () r) :
    (sscanf_d_lf tag line).n ≠ 2 ∧ (sscanf_lf tag line).n ≠ 1 := by
  unfold sscanf_d_lf sscanf_lf
  cases hl : scanLit tag line with
  | ok u r => exact absurd hl (h r)
  | matchFail => simp
  | inputFail => simp

theorem scan_bad_id (tag line r : List Char) (h : scanLit tag line = Conv.ok () r)
    (hid : ∀ c r1, scanInt (skipSpace r) ≠ Conv.ok c r1) : (sscanf_d_lf tag line).n ≠ 2 := by
  unfold sscanf_d_lf
  rw [h]
  simp only
  cases hi : scanInt (skipSpace r) with
  | ok c r1 => exact absurd hi (hid c r1)
  | matchFail => simp
  | inputFail => simp

theorem scan_no_temp2 (tag line r r1 : List Char) (c : Int)
    (h : scanLit tag line = Conv.ok () r) (hid : scanInt (skipSpace r) = Conv.ok c r1)
    (hend : skipSpace r1 = []) : (sscanf_d_lf tag line).n ≠ 2 := by
  unfold sscanf_d_lf
  rw [h]
  simp only
  rw [hid]
  simp only
  have : scanFloat (skipSpace r1) = Conv.inputFail := by
    rw [hend]
    simp [scanFloat, skipSpace]
  rw [this]
  simp

theorem scan_no_temp1 (tag line r : List Char) (h : scanLit tag line = Conv.ok () r)
    (hend : skipSpace r = []) : (sscanf_lf tag line).n ≠ 1 := by
  unfold sscanf_lf
  rw [h]
  simp only
  have : scanFloat (skipSpace r) = Conv.inputFail := by
    rw [hend]
    simp [scanFloat, skipSpace]
  rw [this]
  simp


theorem keyword_exclusive (line : List Char) :
    (∀ r, scanLit "DONE".toList line = Conv.ok () r →
      ∀ r1, scanLit "CENTRAL".toList line ≠ Conv.ok () r1) ∧
    (∀ r, scanLit "CENTRAL".toList line = Conv.ok () r →
      ∀ r1, scanLit "DONE".toList line ≠ Conv.ok () r1) := by
  rw [tagC, tagD]
  cases line with
  | nil => simp [scanLit]
  | cons c rest =>
    by_cases hD : c = 'D'
    · subst hD
      simp [scanLit]
    · simp [scanLit, Ne.symm hD]

/-- C8, amended.  A read on which `sscanf` does not convert every field of the
format ends the reader.  At registration (return value other than 2 on some
connection) the coordinator returns 1.  In a collect loop that has read `i`
lines without error, leaving state `st1` and events `ev`, a return value other
than 2 ends the run with exit status 1 in state `st1`, and nothing is sent or
stored after `ev`.  The peripheral, when neither of its two calls returns 1,
sends nothing, keeps its value and ends.  Such reads include every line that
does not begin with the keyword, every line whose id is missing or not a
number, and every line that ends before the temperature.  Text after the last
field is not a reason to reject: the coordinator takes 2.5 from
`TEMP 1 2.5 junk` and finishes the round, the peripheral answers
`CENTRAL 4.0 junk`. -/
theorem C8_unconverted_line_aborts :
    (∀ (central : ℚ) (currJunk lastJunk : List ℚ) (hello : Nat → Hello) (i : Nat), i < 4 →
      (hello i).rx.n ≠ 2 → register central currJunk lastJunk hello = .error 1) ∧
    (∀ (env : Nat → RoundIn) (fuel : Nat) (st st1 : Server) (ev : List Event) (i : Nat), i < 4 →
      (∀ j, j < 4 → (env (st.iter + 1)).sendOk j = true) →
      collectFrom (env (st.iter + 1)).rx i 0 { st with iter := st.iter + 1 } =
        (ev, Collected.ok st1) →
      ((env (st.iter + 1)).rx i).n ≠ 2 →
      run env (fuel + 1) st = (centrals st.central ++ ev, RunRes.exit 1 st1)) ∧
    (∀ (sendOk : Bool) (rx : RxC) (st : Client), rx.nDone ≠ 1 → rx.nCentral ≠ 1 →
      ∃ code, clientStep sendOk rx st = ([], ClientRes.exit code st)) ∧
    (∀ tag line : List Char, (∀ r, scanLit tag line ≠ Conv.ok () r) →
      (rxOfLine tag line).n ≠ 2) ∧
    (∀ tag line r : List Char, scanLit tag line = Conv.ok () r →
      (∀ c r1, scanInt (skipSpace r) ≠ Conv.ok c r1) → (rxOfLine tag line).n ≠ 2) ∧
    (∀ (tag line r r1 : List Char) (c : Int), scanLit tag line = Conv.ok () r →
      scanInt (skipSpace r) = Conv.ok c r1 → skipSpace r1 = [] → (rxOfLine tag line).n ≠ 2) ∧
    (∀ line : List Char, (∀ r, scanLit "DONE".toList line ≠ Conv.ok () r) →
      (∀ r, scanLit "CENTRAL".toList line ≠ Conv.ok () r) →
      (rxcOfLine line).nDone ≠ 1 ∧ (rxcOfLine line).nCentral ≠ 1) ∧
    (∀ line r : List Char,
      scanLit "DONE".toList line = Conv.ok () r ∨ scanLit "CENTRAL".toList line = Conv.ok () r →
      skipSpace r = [] → (rxcOfLine line).nDone ≠ 1 ∧ (rxcOfLine line).nCentral ≠ 1) ∧
    (round trailingIn steadyInit).2 =
      RoundRes.next ⟨(2 * 0 + 5 / 2 + 5 / 2 + 5 / 2 + 5 / 2) / 6, [1, 2, 3, 4],
        [5 / 2, 5 / 2, 5 / 2, 5 / 2], [0, 0, 0, 0], true, 1⟩ ∧
    clientStep true (rxcOfLine "CENTRAL 4.0 junk".toList) ⟨3, 6⟩ =
      ([CEvent.sendTemp 3 ((3 * 6 + 2 * 4) / 5)], ClientRes.again ⟨3, (3 * 6 + 2 * 4) / 5⟩) := by
  refine ⟨?_, ?_, ?_, ?_, ?_, ?_, ?_, ?_, ?_, ?_⟩
  · intro central currJunk lastJunk hello i hi hn
    apply register_error central currJunk lastJunk hello i hi
    rintro ⟨-, -, h⟩
    exact hn h
  · intro env fuel st st1 ev i hi hs hpre hn2
    have h4 : NCLIENTS = i + (3 - i + 1) := by unfold NCLIENTS; omega
    have := collect_split (env (st.iter + 1)).rx i (3 - i + 1) 0 _ st1 ev hpre
    rw [← h4, Nat.zero_add] at this
    apply run_abort env fuel st st1 ev hs
    rw [this]
    rw [collectFrom]
    by_cases h1 : ((env (st.iter + 1)).rx i).ret ≤ 0
    · rw [if_pos h1]; simp
    · rw [if_neg h1, if_pos hn2]; simp
  · intro sendOk rx st h1 h2
    refine ⟨0, ?_⟩
    unfold clientStep
    rw [if_neg h1, if_neg h2]
    simp
  · intro tag line h
    exact (scan_wrong_keyword tag line h).1
  · intro tag line r h hid
    exact scan_bad_id tag line r h hid
  · intro tag line r r1 c h hid hend
    exact scan_no_temp2 tag line r r1 c h hid hend
  · intro line hD hC
    exact ⟨(scan_wrong_keyword _ line hD).2, (scan_wrong_keyword _ line hC).2⟩
  · intro line r h hend
    rcases h with h | h
    · exact ⟨scan_no_temp1 _ line r h hend,
        (scan_wrong_keyword _ line ((keyword_exclusive line).1 r h)).2⟩
    · exact ⟨(scan_wrong_keyword _ line ((keyword_exclusive line).2 r h)).2,
        scan_no_temp1 _ line r h hend⟩
  · simp [round, broadcastFrom, collectFrom, placeFrom, converged, new_central, sumFrom, NCLIENTS,
      steadyInit, trailing_rx0, trailing_rx1, trailing_rx2, trailing_rx3, trailing_send]
  · rw [central_trailing]
    simp [clientStep]

theorem hello_no_temp :
    scanLit "HELLO".toList "HELLO 7".toList = Conv.ok () " 7".toList ∧
      scanInt (skipSpace " 7".toList) = Conv.ok 7 [] ∧ skipSpace [] = [] := by
  simp [scanLit, scanInt, skipSpace, isspace, isdigit, digitsVal]

theorem temp_bad_id :
    scanLit "TEMP".toList "TEMP x 2.0".toList = Conv.ok () " x 2.0".toList ∧
      ∀ c r1, scanInt (skipSpace " x 2.0".toList) ≠ Conv.ok c r1 := by
  simp [scanLit, scanInt, skipSpace, isspace, isdigit, digitsVal]

theorem bare_keyword :
    scanLit "CENTRAL".toList "CENTRAL".toList = Conv.ok () [] ∧ skipSpace [] = [] := by
  simp [scanLit, skipSpace]

/-- The three readers of amended C8 on a HELLO without temperature, a TEMP with
a letter for the id, and a bare keyword read by the peripheral. -/
theorem C8_unconverted_line_aborts_witness :
    register 0 [0, 0, 0, 0] [0, 0, 0, 0] (lineHello "HELLO 7".toList) = .error 1 ∧
      run (lineEnv "TEMP x 2.0".toList) (0 + 1) steadyInit =
        (centrals steadyInit.central ++ [],
          RunRes.exit 1 { steadyInit with iter := steadyInit.iter + 1 }) ∧
      ∃ code, clientStep true (rxcOfLine "CENTRAL".toList) ⟨3, 6⟩ =
        ([], ClientRes.exit code ⟨3, 6⟩) :=
  ⟨C8_unconverted_line_aborts.1 0 [0, 0, 0, 0] [0, 0, 0, 0] (lineHello "HELLO 7".toList) 0
      (by decide)
      (C8_unconverted_line_aborts.2.2.2.2.2.1 _ _ _ _ 7 hello_no_temp.1 hello_no_temp.2.1
        hello_no_temp.2.2),
    C8_unconverted_line_aborts.2.1 (lineEnv "TEMP x 2.0".toList) 0 steadyInit _ [] 0 (by decide)
      (fun _ _ => rfl) rfl
      (C8_unconverted_line_aborts.2.2.2.2.1 _ _ _ temp_bad_id.1 temp_bad_id.2),
    C8_unconverted_line_aborts.2.2.1 true (rxcOfLine "CENTRAL".toList) ⟨3, 6⟩
      (C8_unconverted_line_aborts.2.2.2.2.2.2.2.1 _ _ (Or.inr bare_keyword.1) bare_keyword.2).1
      (C8_unconverted_line_aborts.2.2.2.2.2.2.2.1 _ _ (Or.inr bare_keyword.1) bare_keyword.2).2⟩

end TempStab
